import Mathlib

/-!
# InfMoE TensorRT plugin: serialization, workspace layout and the pipelined expert executor

A shallow embedding of `plugin/MoELayerPlugin.cc` (with the sizing interface of
`plugin/SubLayer.h`).  Pointers are byte offsets from the start of the block they point
into, machine integers are `Int`/`Nat` with explicit wrap-around, device work is recorded as
the sequence of operations `enqueue` issues.
-/

namespace InfMoE

/-! ## Machine integers -/

/-- Conversion of a signed integer to `size_t` (64 bits; unsigned arithmetic wraps modulo
`2 ^ 64`). -/
def toSizeT (n : Int) : Nat := (n % (2 : Int) ^ 64).toNat

/-- Conversion to `int32_t` (`static_cast<int32_t>`, or an implicit narrowing). -/
def toInt32 (n : Int) : Int := (n + 2 ^ 31) % 2 ^ 32 - 2 ^ 31

/-- Conversion to `int64_t`. -/
def toInt64 (n : Int) : Int := (n + 2 ^ 63) % 2 ^ 64 - 2 ^ 63

/-! ## Plugin state -/

/-- Sizing functions of `MoESubLayer` (`SubLayer.h`): `weightSize()` and
`workspaceSize(int32_t)`, both returning `size_t`. -/
structure MoESubLayer where
  weightSize : Nat
  workspaceSize : Int → Nat

/-- The `nvinfer1::Weights` record as far as the plugin uses it: the element count
(`int64_t`) and the array `values` points to, one 32-bit pattern per `float`; `none` is the
null pointer. -/
structure Weights where
  count : Int
  values : Option (List Nat)
deriving DecidableEq, Repr

/-- The sublayer variants `createSublayer` can build. -/
inductive SublayerKind where
  | T5FF
  | Identity
deriving DecidableEq, Repr

/-- Data members of `MoELayerPlugin` (strings are the bytes before the terminator). -/
structure MoELayerPlugin where
  mExpertCount : Int
  mHiddenSize : Int
  mMaxConcurrency : Int
  mExpertCentroidsCPU : Weights
  mExpertWeightFile : List Nat
  mSublayerType : List Nat
  mEmbeddingSize : Int := -1
  mSequenceLength : Int := -1
  mSublayer : Option SublayerKind := none
deriving DecidableEq, Repr

/-! ## Serialized configuration -/

/-- The `w` low bytes of `n`, least significant first (how x86-64 and CUDA hosts store an
integer). -/
def leBytes : Nat → Nat → List Nat
  | 0, _ => []
  | w + 1, n => n % 256 :: leBytes w (n / 256)

/-- The number a little-endian byte sequence stores. -/
def leValue : List Nat → Nat
  | [] => 0
  | b :: bs => b + 256 * leValue bs

/-- Bytes an `int` (or a value narrowed to `int`) is stored as. -/
def int32Bytes (x : Int) : List Nat := leBytes 4 (x % 2 ^ 32).toNat

/-- Bytes an `int64_t` is stored as. -/
def int64Bytes (x : Int) : List Nat := leBytes 8 (x % 2 ^ 64).toNat

/-- Bytes of a `float` array given by its 32-bit patterns. -/
def floatBytes (words : List Nat) : List Nat := words.flatMap (leBytes 4)

/-- The 32-bit patterns of a byte sequence read as a `float` array. -/
def wordsOf : List Nat → List Nat
  | a :: b :: c :: d :: rest => leValue [a, b, c, d] :: wordsOf rest
  | _ => []

/-- Read `n` bytes at offset `pos` of a memory block; `none` outside the block. -/
def readAt (buf : List Nat) (pos : Int) (n : Nat) : Option (List Nat) :=
  if 0 ≤ pos ∧ pos.toNat + n ≤ buf.length then some ((buf.drop pos.toNat).take n) else none

/-- Overwrite the bytes at offset `pos` of a memory block; `none` outside the block. -/
def writeAt (buf : List Nat) (pos : Nat) (bs : List Nat) : Option (List Nat) :=
  if pos + bs.length ≤ buf.length then
    some (buf.take pos ++ bs ++ buf.drop (pos + bs.length))
  else none

/-- The C string at offset `pos` (what `strdup` copies): the bytes before the first
terminator; `none` when the block holds no terminator from `pos` on. -/
def cstrAt (buf : List Nat) (pos : Int) : Option (List Nat) :=
  if 0 ≤ pos ∧ 0 ∈ buf.drop pos.toNat then some ((buf.drop pos.toNat).takeWhile (· ≠ 0))
  else none

/-- Offset of the centroid count in the serialized block: the five `int` fields, the two
strings with their terminators, and the padding `serialize` skips ("align to 8 byte"). -/
def countOffset (l1 l2 : Nat) : Nat :=
  if (l1 + l2 + 2) % 8 ≠ 0 then 20 + (l1 + 1) + (l2 + 1) + (8 - (l1 + l2 + 2) % 8)
  else 20 + (l1 + 1) + (l2 + 1)

/-- `MoELayerPlugin::getSerializationSize`; `METADATA_LENGTH` is declared outside the
sources at hand and is a parameter. -/
def getSerializationSize (METADATA_LENGTH : Nat) (p : MoELayerPlugin) : Nat :=
  (METADATA_LENGTH + toSizeT p.mExpertCentroidsCPU.count * 4 + p.mExpertWeightFile.length +
    p.mSublayerType.length) % 2 ^ 64

/-- `MoELayerPlugin::serialize` into the block `buffer`: the block afterwards and the offset
one past the last byte written.  `none` when a store leaves the block, the centroid pointer
is null, or the centroid array is shorter than `count` floats. -/
def serialize (p : MoELayerPlugin) (buffer : List Nat) : Option (List Nat × Nat) := do
  let b ← writeAt buffer 0 (int32Bytes p.mExpertCount)
  let b ← writeAt b 4 (int32Bytes p.mHiddenSize)
  let b ← writeAt b 8 (int32Bytes p.mMaxConcurrency)
  let expert_weight_file_len := p.mExpertWeightFile.length
  let sublayer_type_len := p.mSublayerType.length
  let b ← writeAt b 12 (int32Bytes expert_weight_file_len)
  let b ← writeAt b 16 (int32Bytes sublayer_type_len)
  let char_buffer := 20
  let b ← writeAt b char_buffer (p.mExpertWeightFile ++ [0])
  let char_buffer := char_buffer + (expert_weight_file_len + 1)
  let b ← writeAt b char_buffer (p.mSublayerType ++ [0])
  let char_buffer := char_buffer + (sublayer_type_len + 1)
  let string_size := expert_weight_file_len + sublayer_type_len + 2
  let char_buffer :=
    if string_size % 8 ≠ 0 then char_buffer + (8 - string_size % 8) else char_buffer
  let b ← writeAt b char_buffer (int64Bytes p.mExpertCentroidsCPU.count)
  let int64_buffer := char_buffer + 8
  let values ← p.mExpertCentroidsCPU.values
  let n := (toSizeT p.mExpertCentroidsCPU.count * 4) % 2 ^ 64
  if (floatBytes values).length < n then none
  else do
    let b ← writeAt b int64_buffer ((floatBytes values).take n)
    pure (b, int64_buffer + n)

/-- Ways the deserialization constructor stops without building a plugin. -/
inductive CtorError where
  /-- `assert(serialLength >= METADATA_LENGTH)` failed -/
  | metadataLength
  /-- `assert(size == serialLength - METADATA_LENGTH)` failed -/
  | centroidSize
  /-- `createSublayer` reached `assert(false)` -/
  | unsupportedSublayer
  /-- a load outside the serialized block -/
  | fault
deriving DecidableEq, Repr

/-- A load that faults outside the block. -/
def CtorError.load {α : Type} : Option α → Except CtorError α
  | some a => .ok a
  | none => .error .fault

/-- `MoELayerPlugin::createSublayer`; the names `sublayer_type::T5FF` and
`sublayer_type::Identity` are declared outside the sources at hand and are parameters. -/
def createSublayer (T5FF Identity : List Nat) (mSublayerType : List Nat) :
    Except CtorError SublayerKind :=
  if mSublayerType = T5FF then .ok SublayerKind.T5FF
  else if mSublayerType = Identity then .ok SublayerKind.Identity
  else .error .unsupportedSublayer

/-- The deserialization constructor
`MoELayerPlugin(const char*, const void* serialData, size_t serialLength)` on the block
`serialData` points to. -/
def deserialize (METADATA_LENGTH : Nat) (T5FF Identity : List Nat) (serialData : List Nat)
    (serialLength : Nat) : Except CtorError MoELayerPlugin :=
  if ¬ (serialLength ≥ METADATA_LENGTH) then .error CtorError.metadataLength
  else do
    let mExpertCount := toInt32 (leValue (← CtorError.load (readAt serialData 0 4)))
    let mHiddenSize := toInt32 (leValue (← CtorError.load (readAt serialData 4 4)))
    let mMaxConcurrency := toInt32 (leValue (← CtorError.load (readAt serialData 8 4)))
    let expert_weight_file_len :=
      toInt32 (leValue (← CtorError.load (readAt serialData 12 4)))
    let sublayer_type_len := toInt32 (leValue (← CtorError.load (readAt serialData 16 4)))
    let char_buffer : Int := 20
    let mExpertWeightFile ← CtorError.load (cstrAt serialData char_buffer)
    let char_buffer := char_buffer + (expert_weight_file_len + 1)
    let mSublayerType ← CtorError.load (cstrAt serialData char_buffer)
    let char_buffer := char_buffer + (sublayer_type_len + 1)
    let string_size := expert_weight_file_len + sublayer_type_len + 2
    let char_buffer :=
      if string_size.tmod 8 ≠ 0 then char_buffer + (8 - string_size.tmod 8) else char_buffer
    let count := toInt64 (leValue (← CtorError.load (readAt serialData char_buffer 8)))
    let int64_buffer := char_buffer + 8
    let size := (toSizeT count * 4) % 2 ^ 64
    if ¬ (size = serialLength - METADATA_LENGTH) then .error CtorError.centroidSize
    else do
      let cpu_centroids ← CtorError.load (readAt serialData int64_buffer size)
      let mSublayer ← createSublayer T5FF Identity mSublayerType
      pure
        { mExpertCount := mExpertCount
          mHiddenSize := mHiddenSize
          mMaxConcurrency := mMaxConcurrency
          mExpertCentroidsCPU := { count := count, values := some (wordsOf cpu_centroids) }
          mExpertWeightFile := mExpertWeightFile
          mSublayerType := mSublayerType
          mSublayer := some mSublayer }

/-- The bytes of an ASCII string. -/
def ascii (s : String) : List Nat := s.toList.map Char.toNat

/-- A configuration with two experts, weight file `w.npz`, sublayer type `T5FF` and four
centroid values. -/
def samplePlugin : MoELayerPlugin :=
  { mExpertCount := 2, mHiddenSize := 8, mMaxConcurrency := 2,
    mExpertCentroidsCPU := { count := 4, values := some [0x3f800000, 0, 0, 0x3f800000] },
    mExpertWeightFile := ascii "w.npz", mSublayerType := ascii "T5FF" }

/-- The same configuration with weight file `ww.npz`. -/
def samplePlugin2 : MoELayerPlugin :=
  { samplePlugin with mExpertWeightFile := ascii "ww.npz" }

/-- The block `serialize` leaves when `samplePlugin` is written into 64 zero bytes. -/
def sampleBlock : List Nat :=
  [2, 0, 0, 0, 8, 0, 0, 0, 2, 0, 0, 0, 5, 0, 0, 0, 4, 0, 0, 0,
   119, 46, 110, 112, 122, 0, 84, 53, 70, 70, 0, 0, 0, 0, 0, 0,
   4, 0, 0, 0, 0, 0, 0, 0,
   0, 0, 128, 63, 0, 0, 0, 0, 0, 0, 0, 0, 0, 0, 128, 63,
   0, 0, 0, 0]

/-! ## Workspace size (`getWorkspaceSize`) -/

/-- `ensureSublayerWorkspaceSize(size_t tokenCount)`: the value stored in
`mSublayerWorkspacecSize`.  The argument is narrowed to the `int32_t` parameter of
`workspaceSize`. -/
def ensureSublayerWorkspaceSize (sub : MoESubLayer) (tokenCount : Nat) : Nat :=
  (sub.weightSize + sub.workspaceSize (toInt32 tokenCount)) % 2 ^ 64

/-- `MoELayerPlugin::getWorkspaceSize` for an input whose first dimension is `d0`. -/
def getWorkspaceSize (p : MoELayerPlugin) (sub : MoESubLayer) (d0 : Int) : Nat :=
  let batch_size : Nat := toSizeT d0
  let max_single_expert_token_count : Int :=
    toInt32 ((batch_size * toSizeT p.mSequenceLength) % 2 ^ 64 : Nat)
  let mSublayerWorkspacecSize :=
    ensureSublayerWorkspaceSize sub (toSizeT max_single_expert_token_count)
  let sublayer_size := (mSublayerWorkspacecSize * toSizeT p.mMaxConcurrency) % 2 ^ 64
  let max_token_count := (batch_size * toSizeT p.mSequenceLength) % 2 ^ 64
  let plugin_size :=
    ((max_token_count * toSizeT p.mExpertCount + max_token_count * 2 +
        max_token_count * toSizeT p.mEmbeddingSize * 2) * 4 +
      max_token_count * 2 * 4) % 2 ^ 64
  let final_size := (plugin_size + sublayer_size) % 2 ^ 64
  final_size

/-- A plugin configured for expert count `E`, concurrency `K`, embedding width `D` and
sequence length `S` (the fields the workspace computations read). -/
def shapedPlugin (E K D S : Nat) : MoELayerPlugin :=
  { mExpertCount := E, mHiddenSize := 0, mMaxConcurrency := K,
    mExpertCentroidsCPU := { count := 0, values := none },
    mExpertWeightFile := [], mSublayerType := [],
    mEmbeddingSize := D, mSequenceLength := S }

/-! ## Workspace regions (`enqueue`, step 0) -/

/-- Byte offsets, from `workspace`, of the pointers `enqueue` derives in its step 0, with the
values of `mSublayerWorkspacecSize`, `token_num` and `token_len` it uses. -/
structure Buffers where
  mSublayerWorkspacecSize : Nat
  token_num : Int
  token_len : Int
  d_token_expert_aff : Int
  d_gate_selection : Int
  d_token_pos : Int
  d_routed_features : Int
  d_post_expert_features : Int
  d_mix_coeff : Int
  d_routed_mix_coeff : Int
deriving DecidableEq, Repr

/-- Step 0 of `MoELayerPlugin::enqueue` ("obtain all buffers"); `float` and `int` are four
bytes wide.  The products `batch_size * mSequenceLength`, `token_num * mExpertCount` and
`token_num * token_len` are `int * int` products: they are taken in 32 bits (`toInt32`),
which is their value whenever they fit `int`. -/
def enqueueBuffers (p : MoELayerPlugin) (sub : MoESubLayer) (d0 : Int) : Buffers :=
  let batch_size := d0
  let token_num := toInt32 (batch_size * p.mSequenceLength)
  let token_len := p.mEmbeddingSize
  let mSublayerWorkspacecSize := ensureSublayerWorkspaceSize sub (toSizeT token_num)
  let moe_buffer : Int :=
    ((mSublayerWorkspacecSize * toSizeT p.mMaxConcurrency) % 2 ^ 64 : Nat)
  let d_token_expert_aff := moe_buffer
  let d_gate_selection := moe_buffer + 4 * toInt32 (token_num * p.mExpertCount)
  let d_token_pos := d_gate_selection + 4 * token_num
  let d_routed_features := d_token_pos + 4 * token_num
  let d_post_expert_features := d_routed_features + 4 * toInt32 (token_num * token_len)
  let d_mix_coeff := d_post_expert_features + 4 * toInt32 (token_num * token_len)
  let d_routed_mix_coeff := d_mix_coeff + 4 * token_num
  { mSublayerWorkspacecSize := mSublayerWorkspacecSize
    token_num := token_num
    token_len := token_len
    d_token_expert_aff := d_token_expert_aff
    d_gate_selection := d_gate_selection
    d_token_pos := d_token_pos
    d_routed_features := d_routed_features
    d_post_expert_features := d_post_expert_features
    d_mix_coeff := d_mix_coeff
    d_routed_mix_coeff := d_routed_mix_coeff }

/-- A block of the workspace: first byte and size in bytes. -/
structure Region where
  start : Int
  size : Int
deriving DecidableEq, Repr

/-- One past the last byte of a region. -/
def Region.stop (r : Region) : Int := r.start + r.size

/-- Byte `x` belongs to the region. -/
def Region.contains (r : Region) (x : Int) : Prop := r.start ≤ x ∧ x < r.stop

/-- One region ends before the other starts. -/
def Region.disjoint (a b : Region) : Prop := a.stop ≤ b.start ∨ b.stop ≤ a.start

/-- Slot `k`: `workspace_byte + mSublayerWorkspacecSize * k`, holding one expert's weights and
its working area. -/
def slotRegion (b : Buffers) (k : Int) : Region :=
  { start := (b.mSublayerWorkspacecSize : Int) * k, size := b.mSublayerWorkspacecSize }

/-- Execution queues: the stream passed to `enqueue`, and `mStreams[k]`. -/
inductive Queue where
  | primary
  | slot (k : Int)
deriving DecidableEq, Repr

/-- One step of `enqueue` visible outside the host thread.  Pointers are byte offsets from
`workspace`; `run` also records the loop variable `i` (the expert the bucket belongs to). -/
inductive Op where
  | setStream (q : Queue)
  | affinity (q : Queue)
  | sync (q : Queue)
  | select (q : Queue)
  | count (q : Queue)
  | scatter (q : Queue)
  | scanRead (idx : Nat)
  | copyWeights (dst : Int) (expert : Nat) (q : Queue)
  | run (expert : Nat) (tokenCount : Int) (weights input output workspace : Int) (q : Queue)
  | combine (q : Queue)
deriving DecidableEq, Repr

/-- The loop `while (expert_count[next_expert] == 0 && next_expert < mExpertCount)
next_expert++`, started at `next`: the final `next_expert` and the reads of `expert_count`
it made.  `expert_count` has `E` entries; `oob` is what the word behind the array holds.  The
loop leaves at `next = E` at the latest, so `E + 1 - next` rounds of fuel are enough. -/
def skipEmptyAux (expert_count : List Int) (oob : Int) (E : Nat) : Nat → Nat → Nat × List Op
  | 0, next => (next, [])
  | fuel + 1, next =>
    if expert_count.getD next oob = 0 ∧ next < E then
      let r := skipEmptyAux expert_count oob E fuel (next + 1)
      (r.1, Op.scanRead next :: r.2)
    else (next, [Op.scanRead next])

/-- The scan for the next non-empty expert, with the fuel it needs. -/
def skipEmpty (expert_count : List Int) (oob : Int) (E : Nat) (next : Nat) : Nat × List Op :=
  skipEmptyAux expert_count oob E (E + 1 - next) next

/-- The `for (int i = next_expert, j = 0; i < mExpertCount; i = next_expert, j++)` loop of
step 4, from the state `(i, j)`.  Each round moves `i` forward, so `E - i` rounds of fuel are
enough.  `j % mMaxConcurrency` is the C++ remainder (`Int.tmod`), defined for
`mMaxConcurrency ≠ 0`; `enqueue` enters the loop only with `mMaxConcurrency ≥ 1`. -/
def expertLoopAux (p : MoELayerPlugin) (sub : MoESubLayer) (b : Buffers)
    (expert_count expert_offset : List Int) (oob : Int) : Nat → Nat → Nat → List Op
  | 0, _, _ => []
  | fuel + 1, i, j =>
    if (i : Int) < p.mExpertCount then
      let current_token_offset := expert_offset.getD i 0
      let current_idx := (j : Int).tmod p.mMaxConcurrency
      let next_idx := ((j : Int) + 1).tmod p.mMaxConcurrency
      let current_stream := Queue.slot current_idx
      let next_stream := Queue.slot next_idx
      let current_workspace : Int := (b.mSublayerWorkspacecSize : Int) * current_idx
      let next_workspace : Int := (b.mSublayerWorkspacecSize : Int) * next_idx
      let scan := skipEmpty expert_count oob p.mExpertCount.toNat (i + 1)
      let next_expert := scan.1
      [Op.sync next_stream] ++ scan.2 ++
        (if (next_expert : Int) < p.mExpertCount then
          [Op.copyWeights next_workspace next_expert next_stream] else []) ++
        [Op.setStream current_stream,
         Op.run i (expert_count.getD i oob) current_workspace
          (b.d_routed_features + 4 * current_token_offset)
          (b.d_post_expert_features + 4 * current_token_offset)
          (current_workspace + sub.weightSize) current_stream] ++
        expertLoopAux p sub b expert_count expert_offset oob fuel next_expert (j + 1)
    else []

/-- Synchronisation of `mStreams[0 .. n-1]` in step 5. -/
def drain (n : Nat) : List Op :=
  (List.range n).map fun i => Op.sync (Queue.slot i)

/-- `MoELayerPlugin::enqueue` after `ensureCUDAContext` and `ensureGPUCentroids`: the
operations issued for an input whose first dimension is `d0`, when `moe_expert_count` leaves
`expert_count` and `expert_offset` in the host tables.  `none` when the call does not run to
its end: with `mMaxConcurrency ≤ 0` (`new cudaStream_t[mMaxConcurrency]` has no stream
`mStreams[0]` to load on, and `j % mMaxConcurrency` divides by zero for `0`), or when
`assert(next_expert < mExpertCount)` fails. -/
def enqueue (p : MoELayerPlugin) (sub : MoESubLayer) (d0 : Int)
    (expert_count expert_offset : List Int) (oob : Int) : Option (List Op) :=
  if p.mMaxConcurrency ≤ 0 then none else
  let b := enqueueBuffers p sub d0
  let E := p.mExpertCount.toNat
  let stream := Queue.primary
  let scan := skipEmpty expert_count oob E 0
  let next_expert := scan.1
  if (next_expert : Int) < p.mExpertCount then
    some (
      [Op.setStream stream, Op.affinity stream, Op.sync stream, Op.select stream,
       Op.count stream, Op.scatter stream] ++ scan.2 ++
      [Op.copyWeights 0 next_expert (Queue.slot 0), Op.sync stream] ++
      expertLoopAux p sub b expert_count expert_offset oob (E - next_expert) next_expert 0 ++
      drain p.mMaxConcurrency.toNat ++
      [Op.setStream stream, Op.combine stream])
  else none

/-- Experts of a load/compute projection: the expert of each `copyWeights`. -/
def loads (ops : List Op) : List Nat :=
  ops.filterMap fun
    | Op.copyWeights _ e _ => some e
    | _ => none

/-- The expert and token count of each `run`. -/
def computes (ops : List Op) : List (Nat × Int) :=
  ops.filterMap fun
    | Op.run e n _ _ _ _ _ => some (e, n)
    | _ => none

/-- Experts with a non-zero count, in ascending order. -/
def nonEmptyExperts (expert_count : List Int) : List Nat :=
  (List.range expert_count.length).filter fun e => expert_count.getD e 0 ≠ 0

/-- Non-empty experts among `i, i+1, ..., E-1`. -/
def nonEmptyFrom (expert_count : List Int) (i : Nat) : List Nat :=
  (List.range' i (expert_count.length - i)).filter fun e => expert_count.getD e 0 ≠ 0

/-- The expert whose weights the most recently issued `copyWeights` put at `dst`, given the
loads issued so far, latest first. -/
def lastLoadAt (dst : Int) : List (Int × Nat) → Option Nat
  | [] => none
  | (d, e) :: rest => if d = dst then some e else lastLoadAt dst rest

/-- For each `run`, in issue order: its expert, and the expert of the most recently issued
`copyWeights` whose destination is the `weights` pointer of the `run`.  `seen` holds the loads
issued before `ops`, latest first. -/
def weightsAtRun : List Op → List (Int × Nat) → List (Nat × Option Nat)
  | [], _ => []
  | Op.copyWeights dst e _ :: rest, seen => weightsAtRun rest ((dst, e) :: seen)
  | Op.run e _ w _ _ _ _ :: rest, seen => (e, lastLoadAt w seen) :: weightsAtRun rest seen
  | _ :: rest, seen => weightsAtRun rest seen

/-- Loads and computes in issue order: `(true, e)` for a `copyWeights` of expert `e`,
`(false, e)` for the `run` of expert `e`. -/
def work (ops : List Op) : List (Bool × Nat) :=
  ops.filterMap fun
    | Op.copyWeights _ e _ => some (true, e)
    | Op.run e _ _ _ _ _ _ => some (false, e)
    | _ => none

/-- The strictly sequential schedule `load E_0, compute E_0, load E_1, compute E_1, ...`. -/
def sequentialWork (experts : List Nat) : List (Bool × Nat) :=
  experts.flatMap fun e => [(true, e), (false, e)]

/-- For each `run`, in issue order: its expert and its `input` and `output` pointers. -/
def runPointers (ops : List Op) : List (Nat × Int × Int) :=
  ops.filterMap fun
    | Op.run e _ _ i o _ _ => some (e, i, o)
    | _ => none

/-- Whether a synchronisation of queue `q` is issued before any `copyWeights` or `run`. -/
def syncBeforeWork (q : Queue) : List Op → Bool
  | [] => false
  | Op.sync q' :: rest => if q' = q then true else syncBeforeWork q rest
  | Op.copyWeights _ _ _ :: _ => false
  | Op.run _ _ _ _ _ _ _ :: _ => false
  | _ :: rest => syncBeforeWork q rest

/-- The operations issued after the first `copyWeights`. -/
def afterFirstLoad : List Op → Option (List Op)
  | [] => none
  | Op.copyWeights _ _ _ :: rest => some rest
  | _ :: rest => afterFirstLoad rest

/-- Whether, after the first `copyWeights`, queue `q` is synchronised before any further
`copyWeights` or `run` is issued. -/
def warmUpSyncs (q : Queue) (ops : List Op) : Bool :=
  match afterFirstLoad ops with
  | some rest => syncBeforeWork q rest
  | none => false

/-- A sublayer with 16 bytes of weights per expert and 8 bytes of working area per token. -/
def sampleSublayer : MoESubLayer :=
  { weightSize := 16, workspaceSize := fun n => (8 * n).toNat }

/-- Indices of `expert_count` read by the scans for the first and the next non-empty expert, in
issue order. -/
def scanReads (ops : List Op) : List Nat :=
  ops.filterMap fun
    | Op.scanRead idx => some idx
    | _ => none

/-- Whether the operation is the fused mix-and-gather. -/
def Op.isCombine : Op → Bool
  | Op.combine _ => true
  | _ => false

/-! ## Slot discipline of the executor -/

/-- A concurrency slot as an operation names it: the pointer to its block and its queue
(`workspace_byte + mSublayerWorkspacecSize * idx` and `mStreams[idx]` for one `idx`). -/
abbrev SlotRef := Int × Queue

/-- What is known when an operation is issued: how many `run`s were issued before, the loads
issued before (latest first, with the slot they went to), and the slots of the `run`s whose
queue has not been synchronised since. -/
structure SlotHistory where
  runs : Nat
  loads : List (SlotRef × Nat)
  pending : List SlotRef
deriving DecidableEq, Repr

/-- The history before the first operation. -/
def SlotHistory.empty : SlotHistory := { runs := 0, loads := [], pending := [] }

/-- The history after one more operation: a `copyWeights` is a load into its slot, a `run`
uses the slot of its weights pointer and queue until that queue is synchronised. -/
def SlotHistory.step (h : SlotHistory) : Op → SlotHistory
  | Op.copyWeights dst e q => { h with loads := ((dst, q), e) :: h.loads }
  | Op.run _ _ w _ _ _ q => { h with runs := h.runs + 1, pending := (w, q) :: h.pending }
  | Op.sync q => { h with pending := h.pending.filter fun s => s.2 ≠ q }
  | _ => h

/-- The history after a sequence of operations. -/
def SlotHistory.after (h : SlotHistory) (ops : List Op) : SlotHistory :=
  ops.foldl SlotHistory.step h

/-- The expert of the most recent load into slot `s`. -/
def lastLoadInto (s : SlotRef) : List (SlotRef × Nat) → Option Nat
  | [] => none
  | (s', e) :: rest => if s' = s then some e else lastLoadInto s rest

/-- What is observed when a `run` or a `copyWeights` is issued. -/
inductive SlotReport where
  /-- the `j`-th `run` (from 0): its expert, weights pointer and queue, and the expert of the
  most recent load into that slot -/
  | ran (j : Nat) (expert : Nat) (weights : Int) (q : Queue) (resident : Option Nat)
  /-- a load: its expert, destination and queue, and whether a `run` that used this slot was
  issued before with no synchronisation of the slot's queue since -/
  | loaded (expert : Nat) (dst : Int) (q : Queue) (unsynced : Bool)
deriving DecidableEq, Repr

/-- The reports of the `run`s and loads of a sequence of operations, in issue order, from the
history `h`. -/
def slotReports : List Op → SlotHistory → List SlotReport
  | [], _ => []
  | Op.copyWeights dst e q :: rest, h =>
    SlotReport.loaded e dst q (h.pending.contains (dst, q)) ::
      slotReports rest (h.step (Op.copyWeights dst e q))
  | Op.run e n w i o ws q :: rest, h =>
    SlotReport.ran h.runs e w q (lastLoadInto (w, q) h.loads) ::
      slotReports rest (h.step (Op.run e n w i o ws q))
  | op :: rest, h => slotReports rest (h.step op)

/-- The slot rule for one report, with `K` slots of `P` bytes: the `j`-th `run` is on slot
`j mod K` and on that slot's queue, and the most recent load into that slot is the load of the
expert it computes; a load finds no `run` on its slot that is not yet synchronised. -/
def SlotReport.ok (K P : Int) : SlotReport → Prop
  | SlotReport.ran j e w q resident =>
    w = P * ((j : Int) % K) ∧ q = Queue.slot ((j : Int) % K) ∧ resident = some e
  | SlotReport.loaded _ _ _ unsynced => unsynced = false

instance (K P : Int) : DecidablePred (SlotReport.ok K P) := fun r => by
  cases r <;> (unfold SlotReport.ok; infer_instance)

/-- Pointer and queue of a load or a `run` belong to the same slot `k`, `0 ≤ k < K`. -/
def Op.slotConsistent (K P : Int) (weightSize : Int) : Op → Prop
  | Op.copyWeights dst _ q => ∃ k : Int, 0 ≤ k ∧ k < K ∧ dst = P * k ∧ q = Queue.slot k
  | Op.run _ _ w _ _ ws q =>
    ∃ k : Int, 0 ≤ k ∧ k < K ∧ w = P * k ∧ ws = P * k + weightSize ∧ q = Queue.slot k
  | _ => True

/-- The computes among the reports: position in the order of the computes, and expert. -/
def ranExperts (rs : List SlotReport) : List (Nat × Nat) :=
  rs.filterMap fun
    | SlotReport.ran j e _ _ _ => some (j, e)
    | _ => none

/-! ## Bucket table (TokenShuffler) -/

/-- Modelled from the spec: the counting pass of the TokenShuffler (the kernel
`moe_expert_count` that `enqueue` calls), "O(N) counting pass producing per-expert counts":
entry `e` is the number of tokens whose assignment is expert `e`, for `e = 0 .. E-1`. -/
def bucketCounts (E : Nat) (assignment : List Nat) : List Nat :=
  (List.range E).map fun e => assignment.count e

/-- Modelled from the spec: the "O(E) prefix sum to produce offsets": each bucket starts
where the previous one ends, the first at `acc`. -/
def prefixOffsets : Nat → List Nat → List Nat
  | _, [] => []
  | acc, c :: cs => acc :: prefixOffsets (acc + c) cs

/-- Modelled from the spec: the "bucket-offset table of length E+1 with offset[E]=N": the
prefix sums of the counts for the experts `0 .. E-1`, and the entry
`expert_offset[mExpertCount] = token_num` that `enqueue` stores itself. -/
def bucketOffsets (E : Nat) (assignment : List Nat) : List Nat :=
  prefixOffsets 0 (bucketCounts E assignment) ++ [assignment.length]

/-! ## Teardown (ensureGPUCentroids, terminate) -/

/-- The resources a plugin instance owns. A pointer is `none` when it is `nullptr`, and
`some a` when it holds the address `a`. -/
structure Resources where
  /-- Field `mExpertCentroidsCPU.values`. -/
  mExpertCentroidsCPU : Option Nat
  /-- Field `mExpertCentroidsGPU.values`. -/
  mExpertCentroidsGPU : Option Nat
  mCublasHandle : Option Nat
  mStreams : Option Nat
  /-- Whether `mSublayer` still holds its reference. -/
  mSublayer : Bool
deriving DecidableEq, Repr

/-- Calls that acquire or release a resource. -/
inductive MemCall where
  | cudaMalloc (a : Nat)
  | cudaFree (a : Nat)
  | deleteArray (a : Nat)
  | cublasDestroy (a : Nat)
  | cudaStreamDestroy (i : Nat)
deriving DecidableEq, Repr

/-- `MoELayerPlugin::ensureGPUCentroids`; `fresh` is the address `cudaMalloc` returns. -/
def ensureGPUCentroids (fresh : Nat) (r : Resources) : Resources × List MemCall :=
  if r.mExpertCentroidsGPU ≠ none then (r, [])
  else ({ r with mExpertCentroidsGPU := some fresh }, [MemCall.cudaMalloc fresh])

/-- `MoELayerPlugin::terminate`, for `mMaxConcurrency = K`. -/
def terminate (K : Nat) (r : Resources) : Resources × List MemCall :=
  -- free centroids on CPU and GPU
  let (r, c1) :=
    match r.mExpertCentroidsCPU with
    | some a => ({ r with mExpertCentroidsGPU := none }, [MemCall.deleteArray a])
    | none => (r, [])
  let (r, c2) :=
    match r.mExpertCentroidsGPU with
    | some a => ({ r with mExpertCentroidsCPU := none }, [MemCall.cudaFree a])
    | none => (r, [])
  -- destroy cublas handle
  let (r, c3) :=
    match r.mCublasHandle with
    | some a => ({ r with mCublasHandle := none }, [MemCall.cublasDestroy a])
    | none => (r, [])
  -- destroy cuda streams
  let c4 :=
    match r.mStreams with
    | some a => (List.range K).map MemCall.cudaStreamDestroy ++ [MemCall.deleteArray a]
    | none => []
  -- decrement sublayer ref counter
  ({ r with mSublayer := false }, c1 ++ c2 ++ c3 ++ c4)

/-- A plugin after construction: host centroids at address 100, nothing else created. -/
def sampleResources : Resources :=
  { mExpertCentroidsCPU := some 100, mExpertCentroidsGPU := none, mCublasHandle := none,
    mStreams := none, mSublayer := true }

/-! ## The T5 feed-forward sublayer (T5FFLayer) -/

/-- The sizes `T5FFLayer` takes from its header, in bytes, and its two widths. -/
structure T5FFLayer where
  mEmbeddingSize : Int
  mHiddenSize : Int
  layernormWeightSize : Nat
  intermediateFFWeightSize : Nat
  layernormOutputSize : Int → Nat
  intermediateFFOutputSize : Int → Nat

/-- `T5FFLayer::weightSize` (`size_t` arithmetic). -/
def T5FFLayer.weightSize (l : T5FFLayer) : Nat :=
  (l.layernormWeightSize + 3 * l.intermediateFFWeightSize) % 2 ^ 64

/-- `T5FFLayer::workspaceSize` (`size_t` arithmetic). -/
def T5FFLayer.workspaceSize (l : T5FFLayer) (tokenCount : Int) : Nat :=
  (l.layernormOutputSize tokenCount + 2 * l.intermediateFFOutputSize tokenCount) % 2 ^ 64

/-- The four saved tensors of one expert. -/
inductive T5Tensor where
  | layer_norm_weight
  | wi_0_weight
  | wi_1_weight
  | wo_weight
deriving DecidableEq, Repr

/-- One `cudaMemcpyAsync` of `copyWeights`: source tensor, destination as a byte offset from
`dst`, and byte count. -/
structure Transfer where
  tensor : T5Tensor
  dst : Nat
  bytes : Nat
deriving DecidableEq, Repr

/-- The size `copyWeights` asserts for a tensor. -/
def T5FFLayer.assertedSize (l : T5FFLayer) : T5Tensor → Nat
  | T5Tensor.layer_norm_weight => l.layernormWeightSize
  | _ => l.intermediateFFWeightSize

/-- `T5FFLayer::copyWeights`; `num_bytes` gives the size of each saved tensor of the expert,
and the result is `none` when an assertion fails. -/
def T5FFLayer.copyWeights (l : T5FFLayer) (num_bytes : T5Tensor → Nat) : Option (List Transfer) :=
  -- layernorm_weight: token_num
  if num_bytes T5Tensor.layer_norm_weight ≠ l.layernormWeightSize then none else
  let t0 : Transfer := ⟨T5Tensor.layer_norm_weight, 0, l.layernormWeightSize⟩
  -- wi_0_weight: hidden_size * d_model
  if num_bytes T5Tensor.wi_0_weight ≠ l.intermediateFFWeightSize then none else
  let t1 : Transfer := ⟨T5Tensor.wi_0_weight, l.layernormWeightSize, l.layernormWeightSize⟩
  -- wi_1_weight: hidden_size * d_model
  if num_bytes T5Tensor.wi_1_weight ≠ l.intermediateFFWeightSize then none else
  let t2 : Transfer :=
    ⟨T5Tensor.wi_1_weight, l.layernormWeightSize + l.intermediateFFWeightSize,
      l.layernormWeightSize⟩
  -- wo_weight: d_model * hidden_size
  if num_bytes T5Tensor.wo_weight ≠ l.intermediateFFWeightSize then none else
  let t3 : Transfer :=
    ⟨T5Tensor.wo_weight, l.layernormWeightSize + l.intermediateFFWeightSize * 2,
      l.layernormWeightSize⟩
  some [t0, t1, t2, t3]

/-- Bytes the transfers move in total. -/
def transferred (ts : List Transfer) : Nat := (ts.map Transfer.bytes).sum

/-- The destination range of a transfer. -/
def Transfer.region (t : Transfer) : Region := ⟨t.dst, t.bytes⟩

/-- The four buffers `run` is handed. -/
inductive T5Buffer where
  | weights
  | input
  | output
  | workspace
deriving DecidableEq, Repr

/-- A device pointer: a buffer and a byte offset into it. -/
abbrev T5Ptr := T5Buffer × Nat

/-- The device operations `T5FFLayer::run` issues. -/
inductive T5Step where
  | layernorm (output input : T5Ptr) (n1 n2 : Int) (gamma : T5Ptr)
  | sgemm (m n k : Int) (A : T5Ptr) (lda : Int) (B : T5Ptr) (ldb : Int) (beta : Nat)
      (C : T5Ptr) (ldc : Int)
  | fusedGeluDot (A B : T5Ptr) (len : Int)
  | memcpy (dst src : T5Ptr) (bytes : Nat)
deriving DecidableEq, Repr

/-- `T5FFLayer::run`. -/
def T5FFLayer.run (l : T5FFLayer) (tokenCount : Int) : List T5Step :=
  let expert_input : T5Ptr := (T5Buffer.input, 0)
  let layernorm_weight : T5Ptr := (T5Buffer.weights, 0)
  let layernorm_output : T5Ptr := (T5Buffer.workspace, 0)
  let wi_0_weight : T5Ptr := (T5Buffer.weights, l.layernormWeightSize)
  let wi_0_output : T5Ptr := (T5Buffer.workspace, l.layernormOutputSize tokenCount)
  let wi_1_weight : T5Ptr :=
    (T5Buffer.weights, l.layernormWeightSize + l.intermediateFFWeightSize)
  let wi_1_output : T5Ptr :=
    (T5Buffer.workspace, l.layernormOutputSize tokenCount + l.intermediateFFOutputSize tokenCount)
  let wo_weight : T5Ptr :=
    (T5Buffer.weights, l.layernormWeightSize + l.intermediateFFWeightSize * 2)
  let expert_output : T5Ptr := (T5Buffer.output, 0)
  [ T5Step.layernorm layernorm_output expert_input tokenCount l.mEmbeddingSize layernorm_weight,
    T5Step.sgemm l.mHiddenSize tokenCount l.mEmbeddingSize wi_0_weight l.mEmbeddingSize
      layernorm_output tokenCount 0 wi_0_output l.mHiddenSize,
    T5Step.sgemm l.mHiddenSize tokenCount l.mEmbeddingSize wi_1_weight l.mEmbeddingSize
      layernorm_output tokenCount 0 wi_1_output l.mHiddenSize,
    T5Step.fusedGeluDot wi_0_output wi_1_output (tokenCount * l.mHiddenSize),
    T5Step.memcpy (T5Buffer.output, 0) (T5Buffer.input, 0) (4 * 0),
    T5Step.sgemm l.mEmbeddingSize tokenCount l.mHiddenSize wo_weight l.mHiddenSize
      wi_1_output l.mHiddenSize 1 expert_output l.mEmbeddingSize ]

/-- Bytes copied from the input buffer into the output buffer. -/
def inputBytesCopied (steps : List T5Step) : Nat :=
  (steps.filterMap fun
    | T5Step.memcpy (T5Buffer.output, _) (T5Buffer.input, _) bytes => some bytes
    | _ => none).sum

/-- The steps that write the output buffer, in order. -/
def outputWrites (steps : List T5Step) : List T5Step :=
  steps.filter fun
    | T5Step.layernorm (T5Buffer.output, _) _ _ _ _ => true
    | T5Step.sgemm _ _ _ _ _ _ _ _ (T5Buffer.output, _) _ => true
    | T5Step.fusedGeluDot _ (T5Buffer.output, _) _ => true
    | T5Step.memcpy (T5Buffer.output, _) _ _ => true
    | _ => false

/-- A T5 layer with 8-byte layer norm weights and 64-byte matrices. -/
def sampleT5 : T5FFLayer :=
  { mEmbeddingSize := 2, mHiddenSize := 8, layernormWeightSize := 8,
    intermediateFFWeightSize := 64,
    layernormOutputSize := fun n => (8 * n).toNat,
    intermediateFFOutputSize := fun n => (32 * n).toNat }

/-! ## Theorems -/

theorem toSizeT_natCast (n : Nat) (h : n < 2 ^ 64) : toSizeT (n : Int) = n := by
  unfold toSizeT
  have : ((n : Int) % (2 : Int) ^ 64) = (n : Int) := Int.emod_eq_of_lt (by omega) (by omega)
  rw [this]; simp

theorem toInt32_natCast (n : Nat) (h : n < 2 ^ 31) : toInt32 (n : Int) = n := by
  unfold toInt32
  omega

theorem getWorkspaceSize_of_fits (sub : MoESubLayer) (B S D E K : Nat)
    (hB : B < 2 ^ 31) (hS : S < 2 ^ 31) (hD : D < 2 ^ 31) (hE : E < 2 ^ 31) (hK : K < 2 ^ 31)
    (hM : B * S < 2 ^ 31)
    (hfit : 4 * (B * S) * E + 4 * (B * S) + 4 * (B * S) + 4 * (B * S) * D + 4 * (B * S) * D
        + 2 * 4 * (B * S) + K * (sub.weightSize + sub.workspaceSize ((B * S : Nat) : Int))
        < 2 ^ 64) :
    getWorkspaceSize (shapedPlugin E K D S) sub B
      = 4 * (B * S) * E + 4 * (B * S) + 4 * (B * S) + 4 * (B * S) * D + 4 * (B * S) * D
        + 2 * 4 * (B * S) + K * (sub.weightSize + sub.workspaceSize ((B * S : Nat) : Int)) := by
  have hB64 : toSizeT (B : Int) = B := toSizeT_natCast B (lt_trans hB (by norm_num))
  have hS64 : toSizeT (S : Int) = S := toSizeT_natCast S (lt_trans hS (by norm_num))
  have hD64 : toSizeT (D : Int) = D := toSizeT_natCast D (lt_trans hD (by norm_num))
  have hE64 : toSizeT (E : Int) = E := toSizeT_natCast E (lt_trans hE (by norm_num))
  have hK64 : toSizeT (K : Int) = K := toSizeT_natCast K (lt_trans hK (by norm_num))
  have hMmod : (B * S) % 2 ^ 64 = B * S := Nat.mod_eq_of_lt (lt_trans hM (by norm_num))
  have hM32 : toInt32 ((B * S : Nat) : Int) = ((B * S : Nat) : Int) := toInt32_natCast _ hM
  have hM64 : toSizeT ((B * S : Nat) : Int) = B * S :=
    toSizeT_natCast _ (lt_trans hM (by norm_num))
  simp only [getWorkspaceSize, shapedPlugin, ensureSublayerWorkspaceSize, hB64, hS64, hD64,
    hE64, hK64, hMmod, hM32, hM64]
  clear hB64 hS64 hD64 hE64 hK64 hMmod hM32 hM64 hB hS hD hE hK hM
  generalize B * S = M at *
  generalize sub.workspaceSize (M : Int) = ws at *
  generalize sub.weightSize = w at *
  have hslot : (w + ws) % 2 ^ 64 * K = K * (w + ws) := by
    rcases Nat.eq_zero_or_pos K with h0 | hpos
    · subst h0; simp
    · have h1 : 1 * (w + ws) ≤ K * (w + ws) := Nat.mul_le_mul_right _ hpos
      have h2 : w + ws < 2 ^ 64 := by
        have h3 : K * (w + ws) < 2 ^ 64 := lt_of_le_of_lt (Nat.le_add_left _ _) hfit
        rw [one_mul] at h1
        exact lt_of_le_of_lt h1 h3
      rw [Nat.mod_eq_of_lt h2, Nat.mul_comm]
  rw [hslot]
  have e1 : (M * E + M * 2 + M * D * 2) * 4 + M * 2 * 4
      = 4 * M * E + 4 * M + 4 * M + 4 * M * D + 4 * M * D + 2 * 4 * M := by ring
  rw [e1]
  have h3 : K * (w + ws) < 2 ^ 64 := lt_of_le_of_lt (Nat.le_add_left _ _) hfit
  have h4 : 4 * M * E + 4 * M + 4 * M + 4 * M * D + 4 * M * D + 2 * 4 * M < 2 ^ 64 :=
    lt_of_le_of_lt (Nat.le_add_right _ _) hfit
  rw [Nat.mod_eq_of_lt h3, Nat.mod_eq_of_lt h4, Nat.mod_eq_of_lt hfit]

/-! ### The executor visits exactly the non-empty experts -/

theorem getD_of_lt (l : List Int) (i : Nat) (a b : Int) (h : i < l.length) :
    l.getD i a = l.getD i b := by
  simp [List.getD_eq_getElem?_getD, List.getElem?_eq_getElem h]

theorem nonEmptyFrom_zero (c : List Int) : nonEmptyFrom c 0 = nonEmptyExperts c := by
  simp [nonEmptyFrom, nonEmptyExperts, List.range_eq_range']

theorem nonEmptyFrom_of_le (c : List Int) (i : Nat) (h : c.length ≤ i) :
    nonEmptyFrom c i = [] := by
  simp [nonEmptyFrom, Nat.sub_eq_zero_of_le h]

theorem nonEmptyFrom_step (c : List Int) (i : Nat) (h : i < c.length) :
    nonEmptyFrom c i
      = if c.getD i 0 ≠ 0 then i :: nonEmptyFrom c (i + 1) else nonEmptyFrom c (i + 1) := by
  unfold nonEmptyFrom
  have e : c.length - i = (c.length - (i + 1)) + 1 := by omega
  rw [e, List.range'_succ, List.filter_cons]
  by_cases hc : c.getD i 0 = 0 <;> simp [hc]

theorem nonEmptyFrom_skip (c : List Int) (i : Nat) :
    ∀ d, i + d ≤ c.length → (∀ m, i ≤ m → m < i + d → c.getD m 0 = 0) →
      nonEmptyFrom c i = nonEmptyFrom c (i + d) := by
  intro d
  induction d with
  | zero => intro _ _; rfl
  | succ d ih =>
    intro hle hz
    rw [ih (by omega) (fun m h1 h2 => hz m h1 (by omega))]
    rw [nonEmptyFrom_step c (i + d) (by omega)]
    have hzero := hz (i + d) (by omega) (by omega)
    rw [if_neg (not_not.mpr hzero), Nat.add_assoc]

theorem skipEmptyAux_spec (c : List Int) (oob : Int) :
    ∀ fuel next, next ≤ c.length → c.length + 1 - next ≤ fuel →
      next ≤ (skipEmptyAux c oob c.length fuel next).1 ∧
      (skipEmptyAux c oob c.length fuel next).1 ≤ c.length ∧
      (∀ m, next ≤ m → m < (skipEmptyAux c oob c.length fuel next).1 → c.getD m 0 = 0) ∧
      ((skipEmptyAux c oob c.length fuel next).1 < c.length →
        c.getD (skipEmptyAux c oob c.length fuel next).1 0 ≠ 0) ∧
      loads (skipEmptyAux c oob c.length fuel next).2 = [] ∧
      computes (skipEmptyAux c oob c.length fuel next).2 = [] := by
  intro fuel
  induction fuel with
  | zero => intro next h1 h2; omega
  | succ fuel ih =>
    intro next h1 h2
    unfold skipEmptyAux
    by_cases hc : c.getD next oob = 0 ∧ next < c.length
    · rw [if_pos hc]
      obtain ⟨a1, a2, a3, a4, a5, a6⟩ := ih (next + 1) (by omega) (by omega)
      refine ⟨by simp only; omega, a2, ?_, a4, ?_, ?_⟩
      · intro m hm1 hm2
        rcases Nat.eq_or_lt_of_le hm1 with h | h
        · subst h; rw [getD_of_lt c _ 0 oob hc.2]; exact hc.1
        · exact a3 m (by omega) hm2
      · simpa [loads] using a5
      · simpa [computes] using a6
    · rw [if_neg hc]
      refine ⟨le_refl _, h1, ?_, ?_, by simp [loads], by simp [computes]⟩
      · intro m hm1 hm2; simp only at hm2; omega
      · intro hlt hz
        simp only at hlt hz
        exact hc ⟨by rw [getD_of_lt c _ oob 0 hlt]; exact hz, hlt⟩

theorem loads_append (a b : List Op) : loads (a ++ b) = loads a ++ loads b := by
  simp [loads, List.filterMap_append]

theorem computes_append (a b : List Op) : computes (a ++ b) = computes a ++ computes b := by
  simp [computes, List.filterMap_append]

theorem loads_drain (n : Nat) : loads (drain n) = [] := by
  simp [loads, drain, List.filterMap_eq_nil_iff]

theorem computes_drain (n : Nat) : computes (drain n) = [] := by
  simp [computes, drain, List.filterMap_eq_nil_iff]

theorem expertLoopAux_spec (p : MoELayerPlugin) (sub : MoESubLayer) (b : Buffers)
    (c off : List Int) (oob : Int) (hE : p.mExpertCount = (c.length : Int)) :
    ∀ fuel i j, i ≤ c.length → (i < c.length → c.getD i 0 ≠ 0) → c.length - i ≤ fuel →
      loads (expertLoopAux p sub b c off oob fuel i j) = nonEmptyFrom c (i + 1) ∧
      computes (expertLoopAux p sub b c off oob fuel i j)
        = (nonEmptyFrom c i).map fun e => (e, c.getD e 0) := by
  intro fuel
  induction fuel with
  | zero =>
    intro i j h1 _ h3
    have : c.length ≤ i := by omega
    simp [expertLoopAux, loads, computes, nonEmptyFrom_of_le c i this,
      nonEmptyFrom_of_le c (i + 1) (by omega)]
  | succ fuel ih =>
    intro i j h1 h2 h3
    by_cases hi : i < c.length
    · have hiE : (i : Int) < p.mExpertCount := by rw [hE]; exact_mod_cast hi
      have hto : p.mExpertCount.toNat = c.length := by rw [hE]; simp
      unfold expertLoopAux
      rw [if_pos hiE]
      simp only [hto, skipEmpty]
      obtain ⟨a1, a2, a3, a4, a5, a6⟩ :=
        skipEmptyAux_spec c oob (c.length + 1 - (i + 1)) (i + 1) (by omega) (le_refl _)
      generalize skipEmptyAux c oob c.length (c.length + 1 - (i + 1)) (i + 1) = r at *
      obtain ⟨r1, r2⟩ := ih r.1 (j + 1) a2 a4 (by omega)
      have hskip : nonEmptyFrom c (i + 1) = nonEmptyFrom c r.1 := by
        have := nonEmptyFrom_skip c (i + 1) (r.1 - (i + 1)) (by omega)
          (fun m h1 h2 => a3 m h1 (by omega))
        rw [this]; congr 1; omega
      have hhead : nonEmptyFrom c i = i :: nonEmptyFrom c r.1 := by
        rw [nonEmptyFrom_step c i hi, if_pos (h2 hi), hskip]
      constructor
      · simp only [loads_append, a5, r1]
        by_cases hn : r.1 < c.length
        · have hnE : (r.1 : Int) < p.mExpertCount := by rw [hE]; exact_mod_cast hn
          rw [if_pos hnE, hskip, nonEmptyFrom_step c r.1 hn, if_pos (a4 hn)]
          simp [loads]
        · have hnE : ¬ (r.1 : Int) < p.mExpertCount := by
            rw [hE]; exact_mod_cast hn
          rw [if_neg hnE, hskip, nonEmptyFrom_of_le c r.1 (by omega),
            nonEmptyFrom_of_le c (r.1 + 1) (by omega)]
          simp [loads]
      · simp only [computes_append, a6, r2, hhead]
        have : computes (if (r.1 : Int) < p.mExpertCount then
            [Op.copyWeights ((b.mSublayerWorkspacecSize : Int) *
              ((j : Int) + 1).tmod p.mMaxConcurrency) r.1
              (Queue.slot (((j : Int) + 1).tmod p.mMaxConcurrency))] else []) = [] := by
          split <;> simp [computes]
        rw [this]
        simp [computes, List.getElem?_eq_getElem hi]
    · have : c.length ≤ i := by omega
      have hiE : ¬ (i : Int) < p.mExpertCount := by rw [hE]; exact_mod_cast hi
      unfold expertLoopAux
      rw [if_neg hiE]
      simp [loads, computes, nonEmptyFrom_of_le c i this,
        nonEmptyFrom_of_le c (i + 1) (by omega)]

theorem enqueue_spec (p : MoELayerPlugin) (sub : MoESubLayer) (d0 : Int)
    (c off : List Int) (oob : Int) (hE : p.mExpertCount = (c.length : Int))
    (hK : 0 < p.mMaxConcurrency) (hne : ∃ e, e < c.length ∧ c.getD e 0 ≠ 0) :
    ∃ ops, enqueue p sub d0 c off oob = some ops ∧
      loads ops = nonEmptyExperts c ∧
      computes ops = (nonEmptyExperts c).map fun e => (e, c.getD e 0) := by
  have hto : p.mExpertCount.toNat = c.length := by rw [hE]; simp
  obtain ⟨a1, a2, a3, a4, a5, a6⟩ :=
    skipEmptyAux_spec c oob (c.length + 1 - 0) 0 (by omega) (le_refl _)
  unfold enqueue
  rw [if_neg (not_le.mpr hK)]
  simp only [hto, skipEmpty]
  generalize skipEmptyAux c oob c.length (c.length + 1 - 0) 0 = r at *
  have hlt : r.1 < c.length := by
    obtain ⟨e, he1, he2⟩ := hne
    by_contra hcon
    exact he2 (a3 e (by omega) (by omega))
  have hltE : (r.1 : Int) < p.mExpertCount := by rw [hE]; exact_mod_cast hlt
  rw [if_pos hltE]
  refine ⟨_, rfl, ?_, ?_⟩
  all_goals
    obtain ⟨r1, r2⟩ :=
      expertLoopAux_spec p sub (enqueueBuffers p sub d0) c off oob hE (c.length - r.1) r.1 0
        a2 a4 (le_refl _)
    have hskip : nonEmptyFrom c 0 = nonEmptyFrom c r.1 := by
      have := nonEmptyFrom_skip c 0 r.1 (by omega) (fun m h1 h2 => a3 m h1 (by omega))
      rw [this]; congr 1; omega
  · simp only [loads_append, a5, r1, loads_drain]
    rw [← nonEmptyFrom_zero, hskip, nonEmptyFrom_step c r.1 hlt, if_pos (a4 hlt)]
    simp [loads]
  · simp only [computes_append, a6, r2, computes_drain]
    rw [← nonEmptyFrom_zero, hskip]
    simp [computes]

/-! ### Workspace layout -/

theorem Region.not_contains_both (a b : Region) (h : a.disjoint b) (x : Int) :
    ¬ (a.contains x ∧ b.contains x) := by
  unfold Region.disjoint at h
  unfold Region.contains
  omega

theorem slot_product (w ws K : Nat) (h : K * (w + ws) < 2 ^ 64) :
    ((w + ws) % 2 ^ 64 * K) % 2 ^ 64 = (w + ws) % 2 ^ 64 * K ∧
      (w + ws) % 2 ^ 64 * K = K * (w + ws) := by
  have e : (w + ws) % 2 ^ 64 * K = K * (w + ws) := by
    rcases Nat.eq_zero_or_pos K with h0 | hpos
    · subst h0; simp
    · have h1 : 1 * (w + ws) ≤ K * (w + ws) := Nat.mul_le_mul_right _ hpos
      rw [one_mul] at h1
      rw [Nat.mod_eq_of_lt (lt_of_le_of_lt h1 h), Nat.mul_comm]
  exact ⟨by rw [e]; exact Nat.mod_eq_of_lt h, e⟩

theorem enqueueBuffers_eq (sub : MoESubLayer) (B S D E K : Nat)
    (hK : K < 2 ^ 31) (hM : B * S < 2 ^ 31)
    (hME : B * S * E < 2 ^ 31) (hMD : B * S * D < 2 ^ 31)
    (hslots : K * (sub.weightSize + sub.workspaceSize ((B * S : Nat) : Int)) < 2 ^ 64) :
    enqueueBuffers (shapedPlugin E K D S) sub B =
      let M : Int := ((B * S : Nat) : Int)
      let P : Nat := (sub.weightSize + sub.workspaceSize ((B * S : Nat) : Int)) % 2 ^ 64
      { mSublayerWorkspacecSize := P
        token_num := M
        token_len := D
        d_token_expert_aff := ((P * K : Nat) : Int)
        d_gate_selection := ((P * K : Nat) : Int) + 4 * (M * E)
        d_token_pos := ((P * K : Nat) : Int) + 4 * (M * E) + 4 * M
        d_routed_features := ((P * K : Nat) : Int) + 4 * (M * E) + 4 * M + 4 * M
        d_post_expert_features :=
          ((P * K : Nat) : Int) + 4 * (M * E) + 4 * M + 4 * M + 4 * (M * D)
        d_mix_coeff :=
          ((P * K : Nat) : Int) + 4 * (M * E) + 4 * M + 4 * M + 4 * (M * D) + 4 * (M * D)
        d_routed_mix_coeff :=
          ((P * K : Nat) : Int) + 4 * (M * E) + 4 * M + 4 * M + 4 * (M * D) + 4 * (M * D)
            + 4 * M } := by
  have hK64 : toSizeT (K : Int) = K := toSizeT_natCast K (lt_trans hK (by norm_num))
  have hM32 : toInt32 ((B * S : Nat) : Int) = ((B * S : Nat) : Int) := toInt32_natCast _ hM
  have hM64 : toSizeT ((B * S : Nat) : Int) = B * S :=
    toSizeT_natCast _ (lt_trans hM (by norm_num))
  have hBS : (B : Int) * (S : Int) = ((B * S : Nat) : Int) := by push_cast; rfl
  have hME32 : toInt32 (((B * S : Nat) : Int) * (E : Int)) = ((B * S : Nat) : Int) * (E : Int) := by
    have e : ((B * S : Nat) : Int) * (E : Int) = ((B * S * E : Nat) : Int) := by push_cast; rfl
    rw [e]
    exact toInt32_natCast _ hME
  have hMD32 : toInt32 (((B * S : Nat) : Int) * (D : Int)) = ((B * S : Nat) : Int) * (D : Int) := by
    have e : ((B * S : Nat) : Int) * (D : Int) = ((B * S * D : Nat) : Int) := by push_cast; rfl
    rw [e]
    exact toInt32_natCast _ hMD
  obtain ⟨s1, -⟩ := slot_product _ _ _ hslots
  simp only [enqueueBuffers, shapedPlugin, ensureSublayerWorkspaceSize, hBS, hK64, hM32, hM64,
    hME32, hMD32, s1]

theorem writeAt_length {buf : List Nat} {p : Nat} {bs b' : List Nat}
    (h : writeAt buf p bs = some b') : b'.length = buf.length := by
  unfold writeAt at h
  split at h
  · injection h with h
    subst h
    simp only [List.length_append, List.length_take, List.length_drop]
    omega
  · cases h

theorem writeAt_getElem? {buf : List Nat} {p : Nat} {bs b' : List Nat}
    (h : writeAt buf p bs = some b') (i : Nat) :
    b'[i]? = if p ≤ i ∧ i < p + bs.length then bs[i - p]? else buf[i]? := by
  unfold writeAt at h
  split at h
  · rename_i hle
    injection h with h
    subst h
    have hp : (List.take p buf).length = p := by
      rw [List.length_take]; omega
    by_cases h1 : i < p
    · rw [if_neg (by omega), List.append_assoc, List.getElem?_append_left (by omega),
        List.getElem?_take_of_lt h1]
    · by_cases h2 : i < p + bs.length
      · rw [if_pos ⟨by omega, h2⟩, List.append_assoc, List.getElem?_append_right (by omega),
          hp, List.getElem?_append_left (by omega)]
      · rw [if_neg (by omega), List.getElem?_append_right (by simp; omega)]
        simp only [List.length_append, hp, List.getElem?_drop]
        congr 1
        omega
  · cases h

theorem readAt_congr {b1 b2 : List Nat} (q n : Nat) (hlen : b1.length = b2.length)
    (h : ∀ i, q ≤ i → i < q + n → b1[i]? = b2[i]?) :
    readAt b1 (q : Int) n = readAt b2 (q : Int) n := by
  unfold readAt
  simp only [Int.toNat_ofNat, hlen]
  split
  · congr 1
    apply List.ext_getElem?
    intro i
    simp only [List.getElem?_take, List.getElem?_drop]
    split
    · exact h (q + i) (by omega) (by omega)
    · rfl
  · rfl

theorem readAt_writeAt_other {buf : List Nat} {p : Nat} {bs b' : List Nat}
    (h : writeAt buf p bs = some b') (q n : Nat) (hd : q + n ≤ p ∨ p + bs.length ≤ q) :
    readAt b' (q : Int) n = readAt buf (q : Int) n := by
  apply readAt_congr q n (writeAt_length h)
  intro i h1 h2
  rw [writeAt_getElem? h i, if_neg (by omega)]

theorem readAt_writeAt_same {buf : List Nat} {p : Nat} {bs b' : List Nat}
    (h : writeAt buf p bs = some b') : readAt b' (p : Int) bs.length = some bs := by
  have hlen := writeAt_length h
  have hle : p + bs.length ≤ buf.length := by
    unfold writeAt at h
    split at h
    · assumption
    · cases h
  unfold readAt
  simp only [Int.toNat_ofNat, hlen]
  rw [if_pos ⟨by omega, hle⟩]
  congr 1
  apply List.ext_getElem?
  intro i
  simp only [List.getElem?_take, List.getElem?_drop]
  split
  · rw [writeAt_getElem? h, if_pos ⟨by omega, by omega⟩]
    congr 1
    omega
  · rename_i hi
    rw [List.getElem?_eq_none (by omega)]

/-! ### Integer encodings -/

theorem leBytes_length (w n : Nat) : (leBytes w n).length = w := by
  induction w generalizing n with
  | zero => rfl
  | succ w ih => simp [leBytes, ih]

theorem leValue_leBytes (w n : Nat) : leValue (leBytes w n) = n % 256 ^ w := by
  induction w generalizing n with
  | zero => simp [leBytes, leValue, Nat.mod_one]
  | succ w ih =>
    simp only [leBytes, leValue, ih]
    rw [pow_succ, Nat.mul_comm (256 ^ w) 256, Nat.mod_mul]

theorem int32_roundtrip (x : Int) (h1 : -2 ^ 31 ≤ x) (h2 : x < 2 ^ 31) :
    toInt32 (leValue (int32Bytes x)) = x := by
  unfold int32Bytes
  rw [leValue_leBytes]
  unfold toInt32
  omega

theorem int64_roundtrip (x : Int) (h1 : -2 ^ 63 ≤ x) (h2 : x < 2 ^ 63) :
    toInt64 (leValue (int64Bytes x)) = x := by
  unfold int64Bytes
  rw [leValue_leBytes]
  unfold toInt64
  omega

theorem countOffset_ge (l1 l2 : Nat) : 20 + (l1 + 1) + (l2 + 1) ≤ countOffset l1 l2 := by
  unfold countOffset
  split <;> omega

theorem countOffset_cast (l1 l2 : Nat) :
    (if ((l1 : Int) + (l2 : Int) + 2).tmod 8 ≠ 0 then
        20 + ((l1 : Int) + 1) + ((l2 : Int) + 1) + (8 - ((l1 : Int) + (l2 : Int) + 2).tmod 8)
      else 20 + ((l1 : Int) + 1) + ((l2 : Int) + 1)) = ((countOffset l1 l2 : Nat) : Int) := by
  have e : ((l1 : Int) + (l2 : Int) + 2).tmod 8 = (((l1 + l2 + 2) % 8 : Nat) : Int) := by
    have : ((l1 : Int) + (l2 : Int) + 2) = ((l1 + l2 + 2 : Nat) : Int) := by push_cast; ring
    rw [this, Int.tmod_eq_emod (by positivity) (by norm_num)]
    norm_cast
  rw [e]
  unfold countOffset
  have hlt : (l1 + l2 + 2) % 8 < 8 := Nat.mod_lt _ (by norm_num)
  by_cases h : (l1 + l2 + 2) % 8 = 0
  · simp [h]
  · have h' : (((l1 + l2 + 2) % 8 : Nat) : Int) ≠ 0 := by exact_mod_cast h
    rw [if_pos h', if_pos h]
    push_cast
    omega

/-- What the block holds after `serialize`. -/
theorem serialize_readback (p : MoELayerPlugin) (buffer b : List Nat) (e : Nat)
    (h : serialize p buffer = some (b, e)) :
    readAt b 12 4 = some (int32Bytes p.mExpertWeightFile.length) ∧
    readAt b 16 4 = some (int32Bytes p.mSublayerType.length) ∧
    readAt b (countOffset p.mExpertWeightFile.length p.mSublayerType.length : Nat) 8
      = some (int64Bytes p.mExpertCentroidsCPU.count) ∧
    e = countOffset p.mExpertWeightFile.length p.mSublayerType.length + 8
        + toSizeT p.mExpertCentroidsCPU.count * 4 % 2 ^ 64 := by
  simp only [serialize, Option.bind_eq_bind, Option.bind_eq_some, Option.pure_def] at h
  obtain ⟨b1, w1, b2, w2, b3, w3, b4, w4, b5, w5, b6, w6, b7, w7, b8, w8, vals, hv, h⟩ := h
  split at h
  · cases h
  rw [Option.bind_eq_some] at h
  obtain ⟨b9, w9, h⟩ := h
  injection h with h
  injection h with hb he
  subst hb
  change writeAt b7 (countOffset p.mExpertWeightFile.length p.mSublayerType.length) _ = _ at w8
  change writeAt b8 (countOffset p.mExpertWeightFile.length p.mSublayerType.length + 8) _ = _
    at w9
  have he' : e = countOffset p.mExpertWeightFile.length p.mSublayerType.length + 8
      + toSizeT p.mExpertCentroidsCPU.count * 4 % 2 ^ 64 := he.symm
  clear he
  have hge := countOffset_ge p.mExpertWeightFile.length p.mSublayerType.length
  generalize countOffset p.mExpertWeightFile.length p.mSublayerType.length = co at *
  have len32 : ∀ x, (int32Bytes x).length = 4 := fun x => leBytes_length 4 _
  have len64 : ∀ x, (int64Bytes x).length = 8 := fun x => leBytes_length 8 _
  refine ⟨?_, ?_, ?_, ?_⟩
  · have r4 := readAt_writeAt_same w4
    rw [len32] at r4
    have r5 := readAt_writeAt_other w5 12 4 (by rw [len32]; omega)
    have r6 := readAt_writeAt_other w6 12 4 (by omega)
    have r7 := readAt_writeAt_other w7 12 4 (by omega)
    have r8 := readAt_writeAt_other w8 12 4 (by omega)
    have r9 := readAt_writeAt_other w9 12 4 (by omega)
    exact r9.trans (r8.trans (r7.trans (r6.trans (r5.trans r4))))
  · have r5 := readAt_writeAt_same w5
    rw [len32] at r5
    have r6 := readAt_writeAt_other w6 16 4 (by omega)
    have r7 := readAt_writeAt_other w7 16 4 (by omega)
    have r8 := readAt_writeAt_other w8 16 4 (by omega)
    have r9 := readAt_writeAt_other w9 16 4 (by omega)
    exact r9.trans (r8.trans (r7.trans (r6.trans r5)))
  · have r8 := readAt_writeAt_same w8
    rw [len64] at r8
    have r9 := readAt_writeAt_other w9 co 8 (by omega)
    exact r9.trans r8
  · exact he'

theorem load_bind {α β : Type} {o : Option α} {a : α} (h : o = some a)
    (f : α → Except CtorError β) : (CtorError.load o >>= f) = f a := by
  subst h; rfl

/-- The constructor on a block whose header, strings and count are known. -/
theorem deserialize_eval (ML : Nat) (T I b : List Nat) (L : Nat)
    (x0 x4 x8 x12 x16 xc s1 s2 : List Nat) (l1 l2 : Nat) (cnt : Int)
    (r0 : readAt b 0 4 = some x0) (r4 : readAt b 4 4 = some x4) (r8 : readAt b 8 4 = some x8)
    (r12 : readAt b 12 4 = some x12) (r16 : readAt b 16 4 = some x16)
    (e1 : toInt32 (leValue x12) = (l1 : Int)) (e2 : toInt32 (leValue x16) = (l2 : Int))
    (c1 : cstrAt b 20 = some s1) (c2 : cstrAt b (20 + ((l1 : Int) + 1)) = some s2)
    (rc : readAt b (countOffset l1 l2 : Nat) 8 = some xc)
    (e3 : toInt64 (leValue xc) = cnt) :
    deserialize ML T I b L =
      (if ¬ (L ≥ ML) then .error CtorError.metadataLength
      else if ¬ (toSizeT cnt * 4 % 2 ^ 64 = L - ML) then .error CtorError.centroidSize
      else
        (CtorError.load
          (readAt b ((countOffset l1 l2 : Nat) + 8) (toSizeT cnt * 4 % 2 ^ 64))) >>=
        fun cpu_centroids => createSublayer T I s2 >>= fun mSublayer =>
          Except.ok
            { mExpertCount := toInt32 (leValue x0)
              mHiddenSize := toInt32 (leValue x4)
              mMaxConcurrency := toInt32 (leValue x8)
              mExpertCentroidsCPU := { count := cnt, values := some (wordsOf cpu_centroids) }
              mExpertWeightFile := s1
              mSublayerType := s2
              mSublayer := some mSublayer }) := by
  unfold deserialize
  split
  · rfl
  rw [load_bind r0, load_bind r4, load_bind r8, load_bind r12, load_bind r16, load_bind c1, e1,
    load_bind c2, e2]
  dsimp only
  rw [countOffset_cast, load_bind rc, e3]
  rfl

theorem cstrAt_isSome_of_readAt (b s : List Nat) (q : Nat)
    (h : readAt b (q : Int) (s.length + 1) = some (s ++ [0])) : ∃ t, cstrAt b (q : Int) = some t := by
  unfold readAt at h
  split at h
  · injection h with h
    have hm : (0 : Nat) ∈ List.take (s.length + 1) (List.drop q b) := by
      simp only [Int.toNat_ofNat] at h
      rw [h]; simp
    have hm' : (0 : Nat) ∈ List.drop q b := List.mem_of_mem_take hm
    refine ⟨(List.drop q b).takeWhile (· ≠ 0), ?_⟩
    unfold cstrAt
    simp only [Int.toNat_ofNat]
    rw [if_pos ⟨by omega, hm'⟩]
  · cases h

/-- What the block holds after `serialize`. -/
theorem serialize_readback_strings (p : MoELayerPlugin) (buffer b : List Nat) (e : Nat)
    (h : serialize p buffer = some (b, e)) :
    readAt b 0 4 = some (int32Bytes p.mExpertCount) ∧
    readAt b 4 4 = some (int32Bytes p.mHiddenSize) ∧
    readAt b 8 4 = some (int32Bytes p.mMaxConcurrency) ∧
    readAt b (20 : Nat) (p.mExpertWeightFile.length + 1) = some (p.mExpertWeightFile ++ [0]) ∧
    readAt b (20 + (p.mExpertWeightFile.length + 1) : Nat) (p.mSublayerType.length + 1)
      = some (p.mSublayerType ++ [0]) := by
  simp only [serialize, Option.bind_eq_bind, Option.bind_eq_some, Option.pure_def] at h
  obtain ⟨b1, w1, b2, w2, b3, w3, b4, w4, b5, w5, b6, w6, b7, w7, b8, w8, vals, hv, h⟩ := h
  split at h
  · cases h
  rw [Option.bind_eq_some] at h
  obtain ⟨b9, w9, h⟩ := h
  injection h with h
  injection h with hb he
  subst hb
  change writeAt b7 (countOffset p.mExpertWeightFile.length p.mSublayerType.length) _ = _ at w8
  change writeAt b8 (countOffset p.mExpertWeightFile.length p.mSublayerType.length + 8) _ = _
    at w9
  clear he
  have hge := countOffset_ge p.mExpertWeightFile.length p.mSublayerType.length
  generalize countOffset p.mExpertWeightFile.length p.mSublayerType.length = co at *
  have len32 : ∀ x, (int32Bytes x).length = 4 := fun x => leBytes_length 4 _
  have len64 : ∀ x, (int64Bytes x).length = 8 := fun x => leBytes_length 8 _
  have lenf : (p.mExpertWeightFile ++ [0]).length = p.mExpertWeightFile.length + 1 := by simp
  have lent : (p.mSublayerType ++ [0]).length = p.mSublayerType.length + 1 := by simp
  refine ⟨?_, ?_, ?_, ?_, ?_⟩
  · have r1 := readAt_writeAt_same w1
    rw [len32] at r1
    have r2 := readAt_writeAt_other w2 0 4 (by rw [len32]; omega)
    have r3 := readAt_writeAt_other w3 0 4 (by rw [len32]; omega)
    have r4 := readAt_writeAt_other w4 0 4 (by rw [len32]; omega)
    have r5 := readAt_writeAt_other w5 0 4 (by rw [len32]; omega)
    have r6 := readAt_writeAt_other w6 0 4 (by omega)
    have r7 := readAt_writeAt_other w7 0 4 (by omega)
    have r8 := readAt_writeAt_other w8 0 4 (by omega)
    have r9 := readAt_writeAt_other w9 0 4 (by omega)
    exact r9.trans (r8.trans (r7.trans (r6.trans (r5.trans (r4.trans (r3.trans (r2.trans r1)))))))
  · have r2 := readAt_writeAt_same w2
    rw [len32] at r2
    have r3 := readAt_writeAt_other w3 4 4 (by rw [len32]; omega)
    have r4 := readAt_writeAt_other w4 4 4 (by rw [len32]; omega)
    have r5 := readAt_writeAt_other w5 4 4 (by rw [len32]; omega)
    have r6 := readAt_writeAt_other w6 4 4 (by omega)
    have r7 := readAt_writeAt_other w7 4 4 (by omega)
    have r8 := readAt_writeAt_other w8 4 4 (by omega)
    have r9 := readAt_writeAt_other w9 4 4 (by omega)
    exact r9.trans (r8.trans (r7.trans (r6.trans (r5.trans (r4.trans (r3.trans r2))))))
  · have r3 := readAt_writeAt_same w3
    rw [len32] at r3
    have r4 := readAt_writeAt_other w4 8 4 (by rw [len32]; omega)
    have r5 := readAt_writeAt_other w5 8 4 (by rw [len32]; omega)
    have r6 := readAt_writeAt_other w6 8 4 (by omega)
    have r7 := readAt_writeAt_other w7 8 4 (by omega)
    have r8 := readAt_writeAt_other w8 8 4 (by omega)
    have r9 := readAt_writeAt_other w9 8 4 (by omega)
    exact r9.trans (r8.trans (r7.trans (r6.trans (r5.trans (r4.trans r3)))))
  · have r6 := readAt_writeAt_same w6
    rw [lenf] at r6
    have r7 := readAt_writeAt_other w7 20 (p.mExpertWeightFile.length + 1) (by omega)
    have r8 := readAt_writeAt_other w8 20 (p.mExpertWeightFile.length + 1) (by omega)
    have r9 := readAt_writeAt_other w9 20 (p.mExpertWeightFile.length + 1) (by omega)
    exact r9.trans (r8.trans (r7.trans r6))
  · have r7 := readAt_writeAt_same w7
    rw [lent] at r7
    have r8 := readAt_writeAt_other w8 (20 + (p.mExpertWeightFile.length + 1))
      (p.mSublayerType.length + 1) (by omega)
    have r9 := readAt_writeAt_other w9 (20 + (p.mExpertWeightFile.length + 1))
      (p.mSublayerType.length + 1) (by omega)
    exact r9.trans (r8.trans r7)

/-- The constructor on the block `serialize` wrote, for any `serialLength`: it passes or
fails its two assertions according to `serialLength` alone. -/
theorem deserialize_serialize (ML : Nat) (T I : List Nat) (p : MoELayerPlugin)
    (buffer b : List Nat) (e : Nat) (L : Nat) (hser : serialize p buffer = some (b, e))
    (h1 : p.mExpertWeightFile.length < 2 ^ 31) (h2 : p.mSublayerType.length < 2 ^ 31)
    (hc1 : -2 ^ 63 ≤ p.mExpertCentroidsCPU.count) (hc2 : p.mExpertCentroidsCPU.count < 2 ^ 63) :
    (¬ (L ≥ ML) → deserialize ML T I b L = .error CtorError.metadataLength) ∧
    (L ≥ ML → ¬ (toSizeT p.mExpertCentroidsCPU.count * 4 % 2 ^ 64 = L - ML) →
      deserialize ML T I b L = .error CtorError.centroidSize) := by
  obtain ⟨r12, r16, rc, -⟩ := serialize_readback p buffer b e hser
  obtain ⟨r0, r4, r8, rf, rt⟩ := serialize_readback_strings p buffer b e hser
  obtain ⟨s1, c1⟩ := cstrAt_isSome_of_readAt b _ 20 rf
  obtain ⟨s2, c2⟩ := cstrAt_isSome_of_readAt b _ _ rt
  have c2' : cstrAt b (20 + ((p.mExpertWeightFile.length : Int) + 1)) = some s2 := by
    rw [← c2]; congr 1
  have hev := deserialize_eval ML T I b L _ _ _ _ _ _ s1 s2 _ _ _ r0 r4 r8 r12 r16
    (int32_roundtrip _ (by omega) (by omega)) (int32_roundtrip _ (by omega) (by omega)) c1 c2' rc
    (int64_roundtrip _ hc1 hc2)
  constructor
  · intro hL
    rw [hev, if_pos hL]
  · intro hL hsz
    rw [hev, if_neg (not_not.mpr hL), if_pos hsz]

/-- With the `serialLength` its second assertion expects, `METADATA_LENGTH + 4 * count`, the
constructor rebuilds the sample configuration from the sample block. -/
theorem deserialize_sampleBlock_at_asserted_length :
    (deserialize 38 (ascii "T5FF") (ascii "Identity") sampleBlock (38 + 16)).toOption
      = some { samplePlugin with mSublayer := some SublayerKind.T5FF } := by
  decide

/-! ### Warm-up -/

theorem afterFirstLoad_append (pre rest : List Op) (dst : Int) (e : Nat) (q : Queue)
    (h : loads pre = []) :
    afterFirstLoad (pre ++ Op.copyWeights dst e q :: rest) = some rest := by
  induction pre with
  | nil => rfl
  | cons op pre ih =>
    cases op <;> simp_all [afterFirstLoad, loads]

theorem enqueue_warmup (p : MoELayerPlugin) (sub : MoESubLayer) (d0 : Int)
    (c off : List Int) (oob : Int) (hE : p.mExpertCount = (c.length : Int))
    (hK : 0 < p.mMaxConcurrency) (hne : ∃ e, e < c.length ∧ c.getD e 0 ≠ 0) :
    ∃ pre rest e0, enqueue p sub d0 c off oob
        = some (pre ++ Op.copyWeights 0 e0 (Queue.slot 0) :: Op.sync Queue.primary :: rest) ∧
      loads pre = [] ∧ computes pre = [] ∧ (nonEmptyExperts c).head? = some e0 := by
  have hto : p.mExpertCount.toNat = c.length := by rw [hE]; simp
  obtain ⟨a1, a2, a3, a4, a5, a6⟩ :=
    skipEmptyAux_spec c oob (c.length + 1 - 0) 0 (by omega) (le_refl _)
  unfold enqueue
  rw [if_neg (not_le.mpr hK)]
  simp only [hto, skipEmpty]
  generalize skipEmptyAux c oob c.length (c.length + 1 - 0) 0 = r at *
  have hlt : r.1 < c.length := by
    obtain ⟨e, he1, he2⟩ := hne
    by_contra hcon
    exact he2 (a3 e (by omega) (by omega))
  have hltE : (r.1 : Int) < p.mExpertCount := by rw [hE]; exact_mod_cast hlt
  rw [if_pos hltE]
  refine ⟨[Op.setStream Queue.primary, Op.affinity Queue.primary, Op.sync Queue.primary,
    Op.select Queue.primary, Op.count Queue.primary, Op.scatter Queue.primary] ++ r.2,
    expertLoopAux p sub (enqueueBuffers p sub d0) c off oob (c.length - r.1) r.1 0 ++
      drain p.mMaxConcurrency.toNat ++ [Op.setStream Queue.primary, Op.combine Queue.primary],
    r.1, ?_, ?_, ?_, ?_⟩
  · simp only [List.append_assoc, List.cons_append, List.nil_append]
  · rw [loads_append, a5]; simp [loads]
  · rw [computes_append, a6]; simp [computes]
  · have hskip : nonEmptyFrom c 0 = nonEmptyFrom c r.1 := by
      have := nonEmptyFrom_skip c 0 r.1 (by omega) (fun m h1 h2 => a3 m h1 (by omega))
      rw [this]; congr 1; omega
    rw [← nonEmptyFrom_zero, hskip, nonEmptyFrom_step c r.1 hlt, if_pos (a4 hlt)]
    rfl

theorem nonEmptyExperts_sorted (c : List Int) : (nonEmptyExperts c).Pairwise (· < ·) :=
  List.Pairwise.filter _ (List.pairwise_lt_range _)

theorem mem_nonEmptyExperts (c : List Int) (e : Nat) :
    e ∈ nonEmptyExperts c ↔ e < c.length ∧ c.getD e 0 ≠ 0 := by
  simp [nonEmptyExperts, List.mem_filter, List.mem_range]

/-! ### Reads of the count table -/

theorem scanReads_append (a b : List Op) : scanReads (a ++ b) = scanReads a ++ scanReads b := by
  simp [scanReads, List.filterMap_append]

theorem skipEmptyAux_reads (c : List Int) (oob : Int) :
    ∀ fuel next, next ≤ c.length → c.length + 1 - next ≤ fuel →
      (skipEmptyAux c oob c.length fuel next).1 ∈
          scanReads (skipEmptyAux c oob c.length fuel next).2 ∧
      (∀ idx ∈ scanReads (skipEmptyAux c oob c.length fuel next).2, idx ≤ c.length) ∧
      (∀ op ∈ (skipEmptyAux c oob c.length fuel next).2, ∃ idx, op = Op.scanRead idx) := by
  intro fuel
  induction fuel with
  | zero => intro next h1 h2; omega
  | succ fuel ih =>
    intro next h1 h2
    unfold skipEmptyAux
    by_cases hc : c.getD next oob = 0 ∧ next < c.length
    · rw [if_pos hc]
      obtain ⟨a1, a2, a3⟩ := ih (next + 1) (by omega) (by omega)
      refine ⟨?_, ?_, ?_⟩
      · simp only [scanReads, List.filterMap_cons, List.mem_cons]
        right
        exact a1
      · intro idx hidx
        simp only [scanReads, List.filterMap_cons, List.mem_cons] at hidx
        rcases hidx with h | h
        · omega
        · exact a2 idx h
      · intro op hop
        simp only [List.mem_cons] at hop
        rcases hop with h | h
        · exact ⟨next, h⟩
        · exact a3 op h
    · rw [if_neg hc]
      refine ⟨by simp [scanReads], ?_, ?_⟩
      · intro idx hidx
        simp [scanReads] at hidx
        omega
      · intro op hop
        simp only [List.mem_singleton] at hop
        exact ⟨next, hop⟩

theorem expertLoopAux_nil_of_ge (p : MoELayerPlugin) (sub : MoESubLayer) (b : Buffers)
    (c off : List Int) (oob : Int) (hE : p.mExpertCount = (c.length : Int))
    (fuel i j : Nat) (h : c.length ≤ i) :
    expertLoopAux p sub b c off oob fuel i j = [] := by
  cases fuel with
  | zero => rfl
  | succ fuel =>
    have hiE : ¬ (i : Int) < p.mExpertCount := by rw [hE]; exact_mod_cast (by omega : ¬ i < c.length)
    unfold expertLoopAux
    rw [if_neg hiE]

theorem expertLoopAux_reads (p : MoELayerPlugin) (sub : MoESubLayer) (b : Buffers)
    (c off : List Int) (oob : Int) (hE : p.mExpertCount = (c.length : Int)) :
    ∀ fuel i j, i < c.length → c.length - i ≤ fuel →
      c.length ∈ scanReads (expertLoopAux p sub b c off oob fuel i j) ∧
      ∀ idx ∈ scanReads (expertLoopAux p sub b c off oob fuel i j), idx ≤ c.length := by
  intro fuel
  induction fuel with
  | zero => intro i j h1 h2; omega
  | succ fuel ih =>
    intro i j hi h2
    have hiE : (i : Int) < p.mExpertCount := by rw [hE]; exact_mod_cast hi
    have hto : p.mExpertCount.toNat = c.length := by rw [hE]; simp
    unfold expertLoopAux
    rw [if_pos hiE]
    simp only [hto, skipEmpty]
    obtain ⟨a1, a2, -, -, -, -⟩ :=
      skipEmptyAux_spec c oob (c.length + 1 - (i + 1)) (i + 1) (by omega) (le_refl _)
    obtain ⟨s1, s2, -⟩ :=
      skipEmptyAux_reads c oob (c.length + 1 - (i + 1)) (i + 1) (by omega) (le_refl _)
    generalize skipEmptyAux c oob c.length (c.length + 1 - (i + 1)) (i + 1) = r at *
    have hcopy : ∀ l : List Op,
        scanReads ((if (r.1 : Int) < p.mExpertCount then
          [Op.copyWeights ((b.mSublayerWorkspacecSize : Int) *
            ((j : Int) + 1).tmod p.mMaxConcurrency) r.1
            (Queue.slot (((j : Int) + 1).tmod p.mMaxConcurrency))] else []) ++ l)
          = scanReads l := by
      intro l
      split <;> simp [scanReads]
    simp only [List.append_assoc, scanReads_append, hcopy]
    have hhead : scanReads [Op.sync (Queue.slot (((j : Int) + 1).tmod p.mMaxConcurrency))] = [] := by
      simp [scanReads]
    have hrun : ∀ (x y z w v : Int) (q q' : Queue),
        scanReads [Op.setStream q', Op.run i x y z w v q] = [] := by
      intro x y z w v q q'
      simp [scanReads]
    rw [hhead, hrun, List.nil_append, List.nil_append]
    by_cases hn : r.1 < c.length
    · obtain ⟨t1, t2⟩ := ih r.1 (j + 1) hn (by omega)
      refine ⟨List.mem_append_right _ t1, ?_⟩
      intro idx hidx
      rcases List.mem_append.mp hidx with h | h
      · exact s2 idx h
      · exact t2 idx h
    · have hr : r.1 = c.length := by omega
      rw [expertLoopAux_nil_of_ge p sub b c off oob hE fuel r.1 (j + 1) (by omega)]
      refine ⟨?_, ?_⟩
      · rw [← hr]; simpa [scanReads] using s1
      · intro idx hidx
        simp only [scanReads, List.filterMap_nil, List.append_nil] at hidx
        exact s2 idx hidx

theorem scanReads_drain (n : Nat) : scanReads (drain n) = [] := by
  simp [scanReads, drain, List.filterMap_eq_nil_iff]

theorem enqueue_reads (p : MoELayerPlugin) (sub : MoESubLayer) (d0 : Int)
    (c off : List Int) (oob : Int) (hE : p.mExpertCount = (c.length : Int))
    (hK : 0 < p.mMaxConcurrency) (hne : ∃ e, e < c.length ∧ c.getD e 0 ≠ 0) :
    ∃ ops, enqueue p sub d0 c off oob = some ops ∧
      c.length ∈ scanReads ops ∧ ∀ idx ∈ scanReads ops, idx ≤ c.length := by
  have hto : p.mExpertCount.toNat = c.length := by rw [hE]; simp
  obtain ⟨a1, a2, a3, a4, -, -⟩ :=
    skipEmptyAux_spec c oob (c.length + 1 - 0) 0 (by omega) (le_refl _)
  obtain ⟨-, s2, -⟩ := skipEmptyAux_reads c oob (c.length + 1 - 0) 0 (by omega) (le_refl _)
  unfold enqueue
  rw [if_neg (not_le.mpr hK)]
  simp only [hto, skipEmpty]
  generalize skipEmptyAux c oob c.length (c.length + 1 - 0) 0 = r at *
  have hlt : r.1 < c.length := by
    obtain ⟨e, he1, he2⟩ := hne
    by_contra hcon
    exact he2 (a3 e (by omega) (by omega))
  have hltE : (r.1 : Int) < p.mExpertCount := by rw [hE]; exact_mod_cast hlt
  rw [if_pos hltE]
  obtain ⟨t1, t2⟩ := expertLoopAux_reads p sub (enqueueBuffers p sub d0) c off oob hE
    (c.length - r.1) r.1 0 hlt (le_refl _)
  refine ⟨_, rfl, ?_, ?_⟩
  · simp only [scanReads_append, List.mem_append]
    left; left; right
    exact t1
  · intro idx hidx
    simp only [scanReads_append, List.mem_append, scanReads_drain, List.not_mem_nil,
      or_false] at hidx
    rcases hidx with ((h | h) | h) | h
    · rcases h with h | h
      · simp [scanReads] at h
      · exact s2 idx h
    · simp [scanReads] at h
    · exact t2 idx h
    · simp [scanReads] at h

/-! ### Drain -/

theorem expertLoopAux_no_combine (p : MoELayerPlugin) (sub : MoESubLayer) (b : Buffers)
    (c off : List Int) (oob : Int) :
    ∀ fuel i j, ∀ op ∈ expertLoopAux p sub b c off oob fuel i j, op.isCombine = false := by
  intro fuel
  induction fuel with
  | zero => intro i j op hop; simp [expertLoopAux] at hop
  | succ fuel ih =>
    intro i j op hop
    unfold expertLoopAux at hop
    split at hop
    · simp only [List.mem_append, List.mem_cons, List.mem_singleton, List.not_mem_nil,
        or_false] at hop
      rcases hop with (((h | h) | h) | h) | h
      · subst h; rfl
      · unfold skipEmpty at h
        have : ∀ fuel next, ∀ op ∈ (skipEmptyAux c oob p.mExpertCount.toNat fuel next).2,
            op.isCombine = false := by
          intro fuel
          induction fuel with
          | zero => intro next op hop; simp [skipEmptyAux] at hop
          | succ fuel ih2 =>
            intro next op hop
            unfold skipEmptyAux at hop
            split at hop
            · simp only [List.mem_cons] at hop
              rcases hop with h | h
              · subst h; rfl
              · exact ih2 _ _ h
            · simp only [List.mem_singleton] at hop
              subst hop; rfl
        exact this _ _ op h
      · split at h
        · simp only [List.mem_singleton] at h
          subst h; rfl
        · simp at h
      · rcases h with h | h <;> (subst h; rfl)
      · exact ih _ _ op h
    · simp at hop

theorem mem_drain (n k : Nat) (h : k < n) : Op.sync (Queue.slot k) ∈ drain n := by
  simp only [drain, List.mem_map, List.bind_eq_flatMap, List.pure_def, List.mem_flatMap,
    List.mem_range, List.mem_singleton]
  exact ⟨k, ⟨k, h, rfl⟩, rfl⟩

theorem enqueue_drain (p : MoELayerPlugin) (sub : MoESubLayer) (d0 : Int)
    (c off : List Int) (oob : Int) (hE : p.mExpertCount = (c.length : Int))
    (hK : 0 < p.mMaxConcurrency) (hne : ∃ e, e < c.length ∧ c.getD e 0 ≠ 0) :
    ∃ ops pre, enqueue p sub d0 c off oob = some ops ∧
      ops = pre ++ drain p.mMaxConcurrency.toNat ++
        [Op.setStream Queue.primary, Op.combine Queue.primary] ∧
      computes pre = computes ops ∧
      (∀ op ∈ pre ++ drain p.mMaxConcurrency.toNat, op.isCombine = false) ∧
      ∀ k : Nat, (k : Int) < p.mMaxConcurrency →
        Op.sync (Queue.slot k) ∈ drain p.mMaxConcurrency.toNat := by
  have hto : p.mExpertCount.toNat = c.length := by rw [hE]; simp
  obtain ⟨a1, a2, a3, a4, -, -⟩ :=
    skipEmptyAux_spec c oob (c.length + 1 - 0) 0 (by omega) (le_refl _)
  obtain ⟨-, -, s3⟩ := skipEmptyAux_reads c oob (c.length + 1 - 0) 0 (by omega) (le_refl _)
  unfold enqueue
  rw [if_neg (not_le.mpr hK)]
  simp only [hto, skipEmpty]
  generalize skipEmptyAux c oob c.length (c.length + 1 - 0) 0 = r at *
  have hlt : r.1 < c.length := by
    obtain ⟨e, he1, he2⟩ := hne
    by_contra hcon
    exact he2 (a3 e (by omega) (by omega))
  have hltE : (r.1 : Int) < p.mExpertCount := by rw [hE]; exact_mod_cast hlt
  rw [if_pos hltE]
  refine ⟨_, [Op.setStream Queue.primary, Op.affinity Queue.primary, Op.sync Queue.primary,
      Op.select Queue.primary, Op.count Queue.primary, Op.scatter Queue.primary] ++ r.2 ++
      [Op.copyWeights 0 r.1 (Queue.slot 0), Op.sync Queue.primary] ++
      expertLoopAux p sub (enqueueBuffers p sub d0) c off oob (c.length - r.1) r.1 0,
    rfl, rfl, ?_, ?_, ?_⟩
  · simp only [computes_append, computes_drain, List.append_nil]
    simp [computes]
  · intro op hop
    simp only [List.mem_append, List.mem_cons, List.mem_singleton, List.not_mem_nil,
      or_false] at hop
    rcases hop with (((h | h) | h) | h) | h
    · rcases h with h | h | h | h | h | h <;> (subst h; rfl)
    · obtain ⟨idx, hidx⟩ := s3 op h
      subst hidx; rfl
    · rcases h with h | h <;> (subst h; rfl)
    · exact expertLoopAux_no_combine p sub _ c off oob _ _ _ op h
    · simp only [drain, List.mem_map] at h
      obtain ⟨a, -, ha⟩ := h
      subst ha; rfl
  · intro k hk
    apply mem_drain
    omega

/-! ### Monotonicity of the workspace size -/

theorem workspace_formula_mono (sub : MoESubLayer) (M1 M2 D E K : Nat)
    (hmono : ∀ a b : Int, a ≤ b → sub.workspaceSize a ≤ sub.workspaceSize b)
    (hle : M1 ≤ M2) :
    4 * M1 * E + 4 * M1 + 4 * M1 + 4 * M1 * D + 4 * M1 * D + 2 * 4 * M1
        + K * (sub.weightSize + sub.workspaceSize ((M1 : Nat) : Int))
      ≤ 4 * M2 * E + 4 * M2 + 4 * M2 + 4 * M2 * D + 4 * M2 * D + 2 * 4 * M2
        + K * (sub.weightSize + sub.workspaceSize ((M2 : Nat) : Int)) := by
  have hws : sub.workspaceSize ((M1 : Nat) : Int) ≤ sub.workspaceSize ((M2 : Nat) : Int) :=
    hmono _ _ (by exact_mod_cast hle)
  gcongr

theorem getWorkspaceSize_mono_of_fits (sub : MoESubLayer) (B1 S1 B2 S2 D E K : Nat)
    (hB1 : B1 < 2 ^ 31) (hS1 : S1 < 2 ^ 31) (hB2 : B2 < 2 ^ 31) (hS2 : S2 < 2 ^ 31)
    (hD : D < 2 ^ 31) (hE : E < 2 ^ 31) (hK : K < 2 ^ 31)
    (hmono : ∀ a b : Int, a ≤ b → sub.workspaceSize a ≤ sub.workspaceSize b)
    (hle : B1 * S1 ≤ B2 * S2) (hM : B2 * S2 < 2 ^ 31)
    (hfit : 4 * (B2 * S2) * E + 4 * (B2 * S2) + 4 * (B2 * S2) + 4 * (B2 * S2) * D
        + 4 * (B2 * S2) * D + 2 * 4 * (B2 * S2)
        + K * (sub.weightSize + sub.workspaceSize ((B2 * S2 : Nat) : Int)) < 2 ^ 64) :
    getWorkspaceSize (shapedPlugin E K D S1) sub B1
      ≤ getWorkspaceSize (shapedPlugin E K D S2) sub B2 := by
  have hm := workspace_formula_mono sub (B1 * S1) (B2 * S2) D E K hmono hle
  rw [getWorkspaceSize_of_fits sub B1 S1 D E K hB1 hS1 hD hE hK (lt_of_le_of_lt hle hM)
      (lt_of_le_of_lt hm hfit),
    getWorkspaceSize_of_fits sub B2 S2 D E K hB2 hS2 hD hE hK hM hfit]
  exact hm

/-! ### Bucket table -/

theorem bucketCounts_length (E : Nat) (a : List Nat) : (bucketCounts E a).length = E := by
  simp [bucketCounts]

theorem prefixOffsets_length (acc : Nat) (cs : List Nat) :
    (prefixOffsets acc cs).length = cs.length := by
  induction cs generalizing acc with
  | nil => rfl
  | cons c cs ih => simp [prefixOffsets, ih]

theorem prefixOffsets_getD (cs : List Nat) :
    ∀ acc e, e < cs.length → (prefixOffsets acc cs).getD e 0 = acc + (cs.take e).sum := by
  induction cs with
  | nil => intro acc e h; simp at h
  | cons c cs ih =>
    intro acc e h
    cases e with
    | zero => simp [prefixOffsets]
    | succ e =>
      have h' : e < cs.length := by simpa using h
      have := ih (acc + c) e h'
      simp only [prefixOffsets, List.getD_cons_succ, List.take_succ_cons, List.sum_cons, this]
      omega

theorem indicator_sum (E a : Nat) :
    ((List.range E).map fun e => if a = e then 1 else 0).sum = if a < E then 1 else 0 := by
  induction E with
  | zero => simp
  | succ E ih =>
    rw [List.range_succ, List.map_append, List.sum_append, ih]
    by_cases h1 : a < E
    · have : a ≠ E := by omega
      simp [h1, this, Nat.lt_succ_of_lt h1]
    · by_cases h2 : a = E
      · subst h2; simp
      · have : ¬ a < E + 1 := by omega
        simp [h1, h2, this]

theorem bucketCounts_sum (E : Nat) (a : List Nat) (hv : ∀ x ∈ a, x < E) :
    (bucketCounts E a).sum = a.length := by
  induction a with
  | nil => simp [bucketCounts]
  | cons x xs ih =>
    have hx : x < E := hv x (List.mem_cons_self _ _)
    have hxs : ∀ y ∈ xs, y < E := fun y hy => hv y (List.mem_cons_of_mem _ hy)
    have e1 : bucketCounts E (x :: xs)
        = (List.range E).map fun e => xs.count e + (if x = e then 1 else 0) := by
      unfold bucketCounts
      apply List.map_congr_left
      intro e _
      rw [List.count_cons]
      simp
    rw [e1, List.sum_map_add, indicator_sum, if_pos hx]
    have := ih hxs
    unfold bucketCounts at this
    rw [this]
    simp

theorem take_sum_succ (cs : List Nat) (e : Nat) :
    (cs.take (e + 1)).sum = (cs.take e).sum + cs.getD e 0 := by
  induction cs generalizing e with
  | nil => simp
  | cons c cs ih =>
    cases e with
    | zero => simp
    | succ e =>
      simp only [List.take_succ_cons, List.sum_cons, List.getD_cons_succ, ih e]
      omega

theorem take_sum_mono (cs : List Nat) (a : Nat) :
    ∀ d, (cs.take a).sum ≤ (cs.take (a + d)).sum := by
  intro d
  induction d with
  | zero => exact le_refl _
  | succ d ih =>
    rw [← Nat.add_assoc, take_sum_succ]
    omega

theorem bucketOffsets_getD (E : Nat) (a : List Nat) (hv : ∀ x ∈ a, x < E) (e : Nat)
    (he : e ≤ E) :
    (bucketOffsets E a).getD e 0 = ((bucketCounts E a).take e).sum := by
  unfold bucketOffsets
  have hl : (prefixOffsets 0 (bucketCounts E a)).length = E := by
    rw [prefixOffsets_length, bucketCounts_length]
  rcases Nat.lt_or_ge e E with h | h
  · rw [List.getD_append _ _ _ _ (by omega),
      prefixOffsets_getD _ 0 e (by rw [bucketCounts_length]; exact h)]
    simp
  · have hE : e = E := by omega
    subst hE
    rw [List.getD_append_right _ _ _ _ (by omega), hl, Nat.sub_self]
    have : List.take e (bucketCounts e a) = bucketCounts e a := by
      apply List.take_of_length_le
      rw [bucketCounts_length]
    rw [this, bucketCounts_sum e a hv]
    rfl

theorem bucket_table (E : Nat) (a : List Nat) (hv : ∀ x ∈ a, x < E) :
    (bucketCounts E a).length = E ∧
    (bucketOffsets E a).length = E + 1 ∧
    (bucketOffsets E a).getD 0 0 = 0 ∧
    (bucketOffsets E a).getD E 0 = a.length ∧
    (bucketCounts E a).sum = a.length ∧
    (∀ e, e < E →
      (bucketOffsets E a).getD (e + 1) 0 - (bucketOffsets E a).getD e 0
        = (bucketCounts E a).getD e 0 ∧
      (bucketOffsets E a).getD e 0 ≤ (bucketOffsets E a).getD (e + 1) 0) ∧
    (∀ x, x < a.length →
      ∃ e, (e < E ∧ (bucketOffsets E a).getD e 0 ≤ x ∧ x < (bucketOffsets E a).getD (e + 1) 0) ∧
        ∀ e', (e' < E ∧ (bucketOffsets E a).getD e' 0 ≤ x ∧
          x < (bucketOffsets E a).getD (e' + 1) 0) → e' = e) := by
  have hS := bucketOffsets_getD E a hv
  have hsum := bucketCounts_sum E a hv
  refine ⟨bucketCounts_length E a, ?_, ?_, ?_, hsum, ?_, ?_⟩
  · simp [bucketOffsets, prefixOffsets_length, bucketCounts_length]
  · rw [hS 0 (Nat.zero_le _)]; simp
  · rw [hS E (le_refl _), List.take_of_length_le (by rw [bucketCounts_length]), hsum]
  · intro e he
    rw [hS (e + 1) he, hS e (by omega), take_sum_succ]
    omega
  · intro x hx
    have hex : ∀ n, n ≤ E → x < ((bucketCounts E a).take n).sum →
        ∃ e, e < n ∧ ((bucketCounts E a).take e).sum ≤ x ∧
          x < ((bucketCounts E a).take (e + 1)).sum := by
      intro n
      induction n with
      | zero => intro _ h; simp at h
      | succ n ih =>
        intro hn h
        by_cases hlt : x < ((bucketCounts E a).take n).sum
        · obtain ⟨e, h1, h2, h3⟩ := ih (by omega) hlt
          exact ⟨e, by omega, h2, h3⟩
        · exact ⟨n, by omega, by omega, h⟩
    have hxE : x < ((bucketCounts E a).take E).sum := by
      rw [List.take_of_length_le (by rw [bucketCounts_length]), hsum]; exact hx
    obtain ⟨e, h1, h2, h3⟩ := hex E (le_refl _) hxE
    refine ⟨e, ⟨h1, by rw [hS e (by omega)]; exact h2, by rw [hS (e + 1) h1]; exact h3⟩, ?_⟩
    rintro e' ⟨g1, g2, g3⟩
    rw [hS e' (by omega)] at g2
    rw [hS (e' + 1) g1] at g3
    rcases Nat.lt_trichotomy e' e with h | h | h
    · have := take_sum_mono (bucketCounts E a) (e' + 1) (e - (e' + 1))
      rw [show e' + 1 + (e - (e' + 1)) = e by omega] at this
      omega
    · exact h
    · have := take_sum_mono (bucketCounts E a) (e + 1) (e' - (e + 1))
      rw [show e + 1 + (e' - (e + 1)) = e' by omega] at this
      omega

/-! ### Slot discipline -/

theorem SlotHistory.after_append (h : SlotHistory) (a b : List Op) :
    h.after (a ++ b) = (h.after a).after b := by
  simp [SlotHistory.after, List.foldl_append]

theorem SlotHistory.after_cons (h : SlotHistory) (op : Op) (l : List Op) :
    h.after (op :: l) = (h.step op).after l := rfl

theorem SlotHistory.after_nil (h : SlotHistory) : h.after [] = h := rfl

theorem slotReports_append (a b : List Op) :
    ∀ h, slotReports (a ++ b) h = slotReports a h ++ slotReports b (h.after a) := by
  induction a with
  | nil => intro h; rfl
  | cons op a ih =>
    intro h
    cases op <;> simp [slotReports, SlotHistory.after_cons, ih]

theorem slotReports_scan (l : List Op) (hl : ∀ op ∈ l, ∃ idx, op = Op.scanRead idx) :
    ∀ h, slotReports l h = [] ∧ h.after l = h := by
  induction l with
  | nil => intro h; exact ⟨rfl, rfl⟩
  | cons op l ih =>
    intro h
    obtain ⟨idx, hidx⟩ := hl op (List.mem_cons_self _ _)
    subst hidx
    have := ih (fun op hop => hl op (List.mem_cons_of_mem _ hop)) h
    simp [slotReports, SlotHistory.after_cons, SlotHistory.step, this]

theorem tmod_natCast (j : Nat) (K : Int) (hK : 2 ≤ K) :
    (j : Int).tmod K = (j : Int) % K ∧ ((j : Int) + 1).tmod K = ((j : Int) + 1) % K ∧
      0 ≤ (j : Int) % K ∧ (j : Int) % K < K ∧ ((j : Int) + 1) % K ≠ (j : Int) % K := by
  refine ⟨Int.tmod_eq_emod (by omega) (by omega), Int.tmod_eq_emod (by omega) (by omega),
    Int.emod_nonneg _ (by omega), Int.emod_lt_of_pos _ (by omega), ?_⟩
  intro h
  rw [Int.emod_eq_emod_iff_emod_sub_eq_zero] at h
  have e : (j : Int) + 1 - j = 1 := by ring
  rw [e, Int.emod_eq_of_lt (by omega) (by omega)] at h
  exact absurd h (by decide)

theorem expertLoopAux_slots (p : MoELayerPlugin) (sub : MoESubLayer) (b : Buffers)
    (c off : List Int) (oob : Int) (hE : p.mExpertCount = (c.length : Int))
    (hK : 2 ≤ p.mMaxConcurrency) :
    ∀ fuel i j (h : SlotHistory), i < c.length → c.length - i ≤ fuel → h.runs = j →
      lastLoadInto ((b.mSublayerWorkspacecSize : Int) * ((j : Int) % p.mMaxConcurrency),
        Queue.slot ((j : Int) % p.mMaxConcurrency)) h.loads = some i →
      ∀ r ∈ slotReports (expertLoopAux p sub b c off oob fuel i j) h,
        r.ok p.mMaxConcurrency b.mSublayerWorkspacecSize := by
  intro fuel
  induction fuel with
  | zero => intro i j h h1 h2; omega
  | succ fuel ih =>
    intro i j h hi h2 hruns hload r hr
    have hiE : (i : Int) < p.mExpertCount := by rw [hE]; exact_mod_cast hi
    have hto : p.mExpertCount.toNat = c.length := by rw [hE]; simp
    obtain ⟨t1, t2, t3, t4, t5⟩ := tmod_natCast j p.mMaxConcurrency hK
    have t2' : ((j + 1 : Nat) : Int) % p.mMaxConcurrency
        = ((j : Int) + 1) % p.mMaxConcurrency := by push_cast; rfl
    unfold expertLoopAux at hr
    rw [if_pos hiE] at hr
    simp only [hto, skipEmpty, t1, t2] at hr
    obtain ⟨a1, a2, -, -, -, -⟩ :=
      skipEmptyAux_spec c oob (c.length + 1 - (i + 1)) (i + 1) (by omega) (le_refl _)
    obtain ⟨-, -, s3⟩ :=
      skipEmptyAux_reads c oob (c.length + 1 - (i + 1)) (i + 1) (by omega) (le_refl _)
    generalize skipEmptyAux c oob c.length (c.length + 1 - (i + 1)) (i + 1) = sc at *
    generalize hcu : (j : Int) % p.mMaxConcurrency = cu at *
    generalize hnx : ((j : Int) + 1) % p.mMaxConcurrency = nx at *
    generalize hP : (b.mSublayerWorkspacecSize : Int) = P at *
    have hq : Queue.slot nx ≠ Queue.slot cu := fun hqq => t5 (by injection hqq)
    have hscan := fun h' => slotReports_scan sc.2 s3 h'
    by_cases hn : sc.1 < c.length
    · have hnE : (sc.1 : Int) < p.mExpertCount := by rw [hE]; exact_mod_cast hn
      rw [if_pos hnE] at hr
      simp only [List.append_assoc, List.singleton_append, List.cons_append,
        List.nil_append] at hr
      simp only [slotReports, slotReports_append, SlotHistory.after_cons, (hscan _).1,
        (hscan _).2, List.nil_append, SlotHistory.step, List.mem_cons] at hr
      rcases hr with hr | hr | hr
      · subst hr
        simp only [SlotReport.ok, List.contains_eq_any_beq, List.any_eq_false, List.mem_filter,
          beq_iff_eq]
        rintro s ⟨_, hs⟩ heq
        subst heq
        simp at hs
      · subst hr
        refine ⟨by rw [hruns, hcu], by rw [hruns, hcu], ?_⟩
        simp only [lastLoadInto]
        rw [if_neg (fun hh => hq (by injection hh)), hload]
      · refine ih sc.1 (j + 1) _ hn (by omega) (by simp [hruns]) ?_ r hr
        rw [t2']
        simp only [lastLoadInto, if_true]
    · have hnE : ¬ (sc.1 : Int) < p.mExpertCount := by rw [hE]; exact_mod_cast hn
      rw [if_neg hnE] at hr
      rw [expertLoopAux_nil_of_ge p sub b c off oob hE fuel sc.1 (j + 1) (by omega)] at hr
      simp only [List.append_assoc, List.singleton_append, List.cons_append,
        List.nil_append, List.append_nil] at hr
      simp only [slotReports, slotReports_append, SlotHistory.after_cons, (hscan _).1,
        (hscan _).2, List.nil_append, SlotHistory.step, List.mem_cons, List.not_mem_nil,
        or_false] at hr
      subst hr
      exact ⟨by rw [hruns, hcu], by rw [hruns, hcu], hload⟩

theorem slotReports_syncs (l : List Op) (hl : ∀ op ∈ l, ∃ q, op = Op.sync q) :
    ∀ h, slotReports l h = [] := by
  induction l with
  | nil => intro h; rfl
  | cons op l ih =>
    intro h
    obtain ⟨q, hq⟩ := hl op (List.mem_cons_self _ _)
    subst hq
    simp only [slotReports]
    exact ih (fun op hop => hl op (List.mem_cons_of_mem _ hop)) _

theorem slotReports_drain (n : Nat) (h : SlotHistory) : slotReports (drain n) h = [] := by
  apply slotReports_syncs
  intro op hop
  simp only [drain, List.mem_map] at hop
  obtain ⟨a, -, ha⟩ := hop
  exact ⟨_, ha.symm⟩

theorem expertLoopAux_consistent (p : MoELayerPlugin) (sub : MoESubLayer) (b : Buffers)
    (c off : List Int) (oob : Int) (hK : 2 ≤ p.mMaxConcurrency) :
    ∀ fuel i j, ∀ op ∈ expertLoopAux p sub b c off oob fuel i j,
      op.slotConsistent p.mMaxConcurrency b.mSublayerWorkspacecSize sub.weightSize := by
  intro fuel
  induction fuel with
  | zero => intro i j op hop; simp [expertLoopAux] at hop
  | succ fuel ih =>
    intro i j op hop
    obtain ⟨t1, t2, t3, t4, -⟩ := tmod_natCast j p.mMaxConcurrency hK
    have t3' : 0 ≤ ((j : Int) + 1) % p.mMaxConcurrency := Int.emod_nonneg _ (by omega)
    have t4' : ((j : Int) + 1) % p.mMaxConcurrency < p.mMaxConcurrency :=
      Int.emod_lt_of_pos _ (by omega)
    unfold expertLoopAux at hop
    split at hop
    · simp only [t1, t2, List.mem_append, List.mem_cons, List.mem_singleton, List.not_mem_nil,
        or_false] at hop
      rcases hop with (((h | h) | h) | h) | h
      · subst h; trivial
      · obtain ⟨-, -, s3⟩ : True ∧ True ∧
            ∀ op ∈ (skipEmpty c oob p.mExpertCount.toNat (i + 1)).2, ∃ idx, op = Op.scanRead idx := by
          refine ⟨trivial, trivial, ?_⟩
          unfold skipEmpty
          have : ∀ fuel next, ∀ op ∈ (skipEmptyAux c oob p.mExpertCount.toNat fuel next).2,
              ∃ idx, op = Op.scanRead idx := by
            intro fuel
            induction fuel with
            | zero => intro next op hop; simp [skipEmptyAux] at hop
            | succ fuel ih2 =>
              intro next op hop
              unfold skipEmptyAux at hop
              split at hop
              · simp only [List.mem_cons] at hop
                rcases hop with h | h
                · exact ⟨next, h⟩
                · exact ih2 _ _ h
              · simp only [List.mem_singleton] at hop
                exact ⟨next, hop⟩
          exact this _ _
        obtain ⟨idx, hidx⟩ := s3 op h
        subst hidx; trivial
      · split at h
        · simp only [List.mem_singleton] at h
          subst h
          exact ⟨_, t3', t4', rfl, rfl⟩
        · simp at h
      · rcases h with h | h
        · subst h; trivial
        · subst h
          exact ⟨_, t3, t4, rfl, rfl, rfl⟩
      · exact ih _ _ op h
    · simp at hop

theorem enqueue_slots (p : MoELayerPlugin) (sub : MoESubLayer) (d0 : Int)
    (c off : List Int) (oob : Int) (hE : p.mExpertCount = (c.length : Int))
    (hK : 2 ≤ p.mMaxConcurrency) (hne : ∃ e, e < c.length ∧ c.getD e 0 ≠ 0) :
    ∃ ops, enqueue p sub d0 c off oob = some ops ∧
      (∀ r ∈ slotReports ops SlotHistory.empty,
        r.ok p.mMaxConcurrency (enqueueBuffers p sub d0).mSublayerWorkspacecSize) ∧
      (∀ op ∈ ops, op.slotConsistent p.mMaxConcurrency
        (enqueueBuffers p sub d0).mSublayerWorkspacecSize sub.weightSize) := by
  have hto : p.mExpertCount.toNat = c.length := by rw [hE]; simp
  obtain ⟨a1, a2, a3, a4, a5, a6⟩ :=
    skipEmptyAux_spec c oob (c.length + 1 - 0) 0 (by omega) (le_refl _)
  obtain ⟨-, -, s3⟩ := skipEmptyAux_reads c oob (c.length + 1 - 0) 0 (by omega) (le_refl _)
  unfold enqueue
  rw [if_neg (not_le.mpr (lt_of_lt_of_le (by norm_num) hK))]
  simp only [hto, skipEmpty]
  generalize skipEmptyAux c oob c.length (c.length + 1 - 0) 0 = sc at *
  have hlt : sc.1 < c.length := by
    obtain ⟨e, he1, he2⟩ := hne
    by_contra hcon
    exact he2 (a3 e (by omega) (by omega))
  have hltE : (sc.1 : Int) < p.mExpertCount := by rw [hE]; exact_mod_cast hlt
  rw [if_pos hltE]
  have hscan := fun h' => slotReports_scan sc.2 s3 h'
  have hz : ((0 : Nat) : Int) % p.mMaxConcurrency = 0 := by
    simp
  refine ⟨_, rfl, ?_, ?_⟩
  · intro r hr
    simp only [List.append_assoc, List.singleton_append, List.cons_append,
      List.nil_append] at hr
    simp only [slotReports, slotReports_append, SlotHistory.after_cons, (hscan _).1,
      (hscan _).2, List.nil_append, SlotHistory.step, List.mem_cons, List.mem_append,
      slotReports_drain, List.not_mem_nil,
      or_false, SlotHistory.empty, List.filter_nil] at hr
    rcases hr with hr | hr
    · subst hr
      simp [SlotReport.ok]
    · refine expertLoopAux_slots p sub (enqueueBuffers p sub d0) c off oob hE hK
        (c.length - sc.1) sc.1 0 _ hlt (le_refl _) rfl ?_ r hr
      rw [hz]
      simp [lastLoadInto]
  · intro op hop
    simp only [List.mem_append, List.mem_cons, List.mem_singleton, List.not_mem_nil,
      or_false] at hop
    rcases hop with ((((h | h) | h) | h) | h) | h
    · rcases h with h | h | h | h | h | h <;> (subst h; trivial)
    · obtain ⟨idx, hidx⟩ := s3 op h
      subst hidx; trivial
    · rcases h with h | h
      · subst h
        exact ⟨0, le_refl _, by omega, by simp, rfl⟩
      · subst h; trivial
    · exact expertLoopAux_consistent p sub _ c off oob hK _ _ _ op h
    · simp only [drain, List.mem_map] at h
      obtain ⟨a, -, ha⟩ := h
      subst ha; trivial
    · rcases h with h | h <;> (subst h; trivial)

theorem ranExperts_slotReports (ops : List Op) :
    ∀ h : SlotHistory, ranExperts (slotReports ops h)
      = List.enumFrom h.runs ((computes ops).map Prod.fst) := by
  induction ops with
  | nil => intro h; rfl
  | cons op ops ih =>
    intro h
    cases op <;>
      simp [slotReports, ranExperts, computes, List.enumFrom] at ih ⊢ <;>
      exact ih _

theorem enqueue_slot_order (p : MoELayerPlugin) (sub : MoESubLayer) (d0 : Int)
    (c off : List Int) (oob : Int) (hE : p.mExpertCount = (c.length : Int))
    (hK : 0 < p.mMaxConcurrency) (hne : ∃ e, e < c.length ∧ c.getD e 0 ≠ 0) :
    ∃ ops, enqueue p sub d0 c off oob = some ops ∧
      ranExperts (slotReports ops SlotHistory.empty) = (nonEmptyExperts c).enum := by
  obtain ⟨ops, h1, h2, h3⟩ := enqueue_spec p sub d0 c off oob hE hK hne
  refine ⟨ops, h1, ?_⟩
  rw [ranExperts_slotReports, h3, List.map_map]
  have : (Prod.fst ∘ fun e => (e, c.getD e 0)) = (id : Nat → Nat) := rfl
  rw [this, List.map_id]
  rfl

/-! ## The claims -/

/-- C1 (the code at the failing inputs): whatever `METADATA_LENGTH` is, when the weight file
name or the sublayer type name is not empty, the constructor run on the block written by
`serialize`, with `serialLength = getSerializationSize()`, fails
`assert(size == serialLength - METADATA_LENGTH)` (or, if the size wrapped around, the first
length assertion) and builds no plugin. -/
theorem serialize_then_deserialize_fails (METADATA_LENGTH : Nat) (T5FF Identity : List Nat)
    (p : MoELayerPlugin) (buffer b : List Nat) (e : Nat)
    (hser : serialize p buffer = some (b, e))
    (h1 : p.mExpertWeightFile.length < 2 ^ 31) (h2 : p.mSublayerType.length < 2 ^ 31)
    (hc1 : -2 ^ 63 ≤ p.mExpertCentroidsCPU.count) (hc2 : p.mExpertCentroidsCPU.count < 2 ^ 63)
    (hpos : 0 < p.mExpertWeightFile.length + p.mSublayerType.length) :
    deserialize METADATA_LENGTH T5FF Identity b (getSerializationSize METADATA_LENGTH p)
        = Except.error CtorError.centroidSize ∨
      deserialize METADATA_LENGTH T5FF Identity b (getSerializationSize METADATA_LENGTH p)
        = Except.error CtorError.metadataLength := by
  obtain ⟨d1, d2⟩ := deserialize_serialize METADATA_LENGTH T5FF Identity p buffer b e
    (getSerializationSize METADATA_LENGTH p) hser h1 h2 hc1 hc2
  by_cases hL : getSerializationSize METADATA_LENGTH p ≥ METADATA_LENGTH
  · left
    apply d2 hL
    clear d1 d2 hser hc1 hc2
    unfold getSerializationSize at hL ⊢
    generalize toSizeT p.mExpertCentroidsCPU.count * 4 = X at *
    generalize p.mExpertWeightFile.length = l1 at *
    generalize p.mSublayerType.length = l2 at *
    omega
  · right
    exact d1 hL

theorem serialize_then_deserialize_fails_witness :
    serialize samplePlugin (List.replicate 64 0) = some (sampleBlock, 60) ∧
    (deserialize 38 (ascii "T5FF") (ascii "Identity") sampleBlock
        (getSerializationSize 38 samplePlugin) = Except.error CtorError.centroidSize ∨
      deserialize 38 (ascii "T5FF") (ascii "Identity") sampleBlock
        (getSerializationSize 38 samplePlugin) = Except.error CtorError.metadataLength) :=
  ⟨by decide,
   serialize_then_deserialize_fails 38 (ascii "T5FF") (ascii "Identity") samplePlugin
    (List.replicate 64 0) sampleBlock 60 (by decide) (by decide) (by decide) (by decide)
    (by decide) (by decide)⟩

/-- C2 (the code at the failing inputs): `serialize` writes 60 bytes both for `samplePlugin`
(weight file `w.npz`) and for `samplePlugin2` (weight file `ww.npz`), and for no value of
`METADATA_LENGTH` does `getSerializationSize` return 60 for both. -/
theorem getSerializationSize_ne_bytes_written (METADATA_LENGTH : Nat) :
    (serialize samplePlugin (List.replicate 64 0)).map Prod.snd = some 60 ∧
    (serialize samplePlugin2 (List.replicate 64 0)).map Prod.snd = some 60 ∧
    (getSerializationSize METADATA_LENGTH samplePlugin ≠ 60 ∨
      getSerializationSize METADATA_LENGTH samplePlugin2 ≠ 60) := by
  refine ⟨by decide, by decide, ?_⟩
  have e1 : getSerializationSize METADATA_LENGTH samplePlugin
      = (METADATA_LENGTH + 16 + 5 + 4) % 2 ^ 64 := by
    unfold getSerializationSize; rfl
  have e2 : getSerializationSize METADATA_LENGTH samplePlugin2
      = (METADATA_LENGTH + 16 + 6 + 4) % 2 ^ 64 := by
    unfold getSerializationSize; rfl
  rw [e1, e2]
  omega

/-- C3: when `serialLength < METADATA_LENGTH` the constructor stops at its first assertion,
whatever the block holds (even an empty block, where any load would fault), and builds no
plugin. -/
theorem deserialize_rejects_short (METADATA_LENGTH : Nat) (T5FF Identity : List Nat)
    (serialData : List Nat) (serialLength : Nat) (h : serialLength < METADATA_LENGTH) :
    deserialize METADATA_LENGTH T5FF Identity serialData serialLength
      = Except.error CtorError.metadataLength := by
  unfold deserialize
  rw [if_pos (by omega)]

theorem deserialize_rejects_short_witness :
    37 < 38 ∧
    deserialize 38 (ascii "T5FF") (ascii "Identity") [] 37
      = Except.error CtorError.metadataLength :=
  ⟨by decide, deserialize_rejects_short 38 (ascii "T5FF") (ascii "Identity") [] 37 (by decide)⟩

/-- C4: with `M = B*S`, when the token count fits `int32_t` and the total fits `size_t`,
`getWorkspaceSize` returns exactly `4*M*E + 4*M + 4*M + 4*M*D + 4*M*D + 2*4*M +
K*(sublayer.weightSize() + sublayer.workspaceSize(M))` bytes. -/
theorem getWorkspaceSize_formula (sub : MoESubLayer) (B S D E K : Nat)
    (hB : B < 2 ^ 31) (hS : S < 2 ^ 31) (hD : D < 2 ^ 31) (hE : E < 2 ^ 31) (hK : K < 2 ^ 31)
    (hM : B * S < 2 ^ 31)
    (hfit : 4 * (B * S) * E + 4 * (B * S) + 4 * (B * S) + 4 * (B * S) * D + 4 * (B * S) * D
        + 2 * 4 * (B * S) + K * (sub.weightSize + sub.workspaceSize ((B * S : Nat) : Int))
        < 2 ^ 64) :
    getWorkspaceSize (shapedPlugin E K D S) sub B
      = 4 * (B * S) * E + 4 * (B * S) + 4 * (B * S) + 4 * (B * S) * D + 4 * (B * S) * D
        + 2 * 4 * (B * S) + K * (sub.weightSize + sub.workspaceSize ((B * S : Nat) : Int)) :=
  getWorkspaceSize_of_fits sub B S D E K hB hS hD hE hK hM hfit

theorem getWorkspaceSize_formula_witness :
    getWorkspaceSize (shapedPlugin 2 2 2 2) sampleSublayer 1
      = 4 * (1 * 2) * 2 + 4 * (1 * 2) + 4 * (1 * 2) + 4 * (1 * 2) * 2 + 4 * (1 * 2) * 2
        + 2 * 4 * (1 * 2)
        + 2 * (sampleSublayer.weightSize + sampleSublayer.workspaceSize ((1 * 2 : Nat) : Int)) :=
  getWorkspaceSize_formula sampleSublayer 1 2 2 2 2 (by decide) (by decide) (by decide)
    (by decide) (by decide) (by decide) (by decide)

/-- C6 as stated fails: with two slots of 32 bytes the affinity-score region starts at byte
64, not at byte 0, and slot 0 starts at byte 0, not behind the mixing-coefficient buffers. -/
theorem affinity_region_not_first :
    (enqueueBuffers (shapedPlugin 2 2 2 2) sampleSublayer 1).d_token_expert_aff = 64 ∧
    (slotRegion (enqueueBuffers (shapedPlugin 2 2 2 2) sampleSublayer 1) 0).start = 0 ∧
    ¬ ((enqueueBuffers (shapedPlugin 2 2 2 2) sampleSublayer 1).d_token_expert_aff = 0 ∧
        ∀ k : Nat, k < 2 →
          (slotRegion (enqueueBuffers (shapedPlugin 2 2 2 2) sampleSublayer 1) k).start
            = Region.stop
                { start :=
                    (enqueueBuffers (shapedPlugin 2 2 2 2) sampleSublayer 1).d_routed_mix_coeff,
                  size := 4 * (enqueueBuffers (shapedPlugin 2 2 2 2) sampleSublayer 1).token_num }
              + (k : Int) *
                (enqueueBuffers (shapedPlugin 2 2 2 2) sampleSublayer 1).mSublayerWorkspacecSize) := by
  refine ⟨by decide, by decide, ?_⟩
  intro h
  exact absurd h.1 (by decide)

/-- C6 as amended: the `K` slots come first, slot `k` at byte `k * perSlotSize`; the
affinity-score region starts at `K * perSlotSize`, and the assignment ids, the original
positions, the routed features before and after the expert and the two mixing-coefficient
buffers follow, each starting where the previous one ends (with `M = B*S` tokens, for `int`
values `B`, `S`, `D`, `E`, `K`, a token count and products `M * E`, `M * D` that fit
`int32_t`, and slots that fit `size_t`). -/
theorem workspace_slots_first (sub : MoESubLayer) (B S D E K : Nat)
    (hB : B < 2 ^ 31) (hS : S < 2 ^ 31) (hD : D < 2 ^ 31) (hE : E < 2 ^ 31) (hK : K < 2 ^ 31)
    (hM : B * S < 2 ^ 31) (hME : B * S * E < 2 ^ 31) (hMD : B * S * D < 2 ^ 31)
    (hslots : K * (sub.weightSize + sub.workspaceSize ((B * S : Nat) : Int)) < 2 ^ 64) :
    (0 < K → (enqueueBuffers (shapedPlugin E K D S) sub B).mSublayerWorkspacecSize
      = sub.weightSize + sub.workspaceSize ((B * S : Nat) : Int)) ∧
    (∀ k : Nat, (slotRegion (enqueueBuffers (shapedPlugin E K D S) sub B) k).start
      = (k : Int) * (enqueueBuffers (shapedPlugin E K D S) sub B).mSublayerWorkspacecSize) ∧
    (enqueueBuffers (shapedPlugin E K D S) sub B).d_token_expert_aff
      = (K : Int) * (enqueueBuffers (shapedPlugin E K D S) sub B).mSublayerWorkspacecSize ∧
    (enqueueBuffers (shapedPlugin E K D S) sub B).d_gate_selection
      = (enqueueBuffers (shapedPlugin E K D S) sub B).d_token_expert_aff
        + 4 * (((B * S : Nat) : Int) * E) ∧
    (enqueueBuffers (shapedPlugin E K D S) sub B).d_token_pos
      = (enqueueBuffers (shapedPlugin E K D S) sub B).d_gate_selection
        + 4 * ((B * S : Nat) : Int) ∧
    (enqueueBuffers (shapedPlugin E K D S) sub B).d_routed_features
      = (enqueueBuffers (shapedPlugin E K D S) sub B).d_token_pos + 4 * ((B * S : Nat) : Int) ∧
    (enqueueBuffers (shapedPlugin E K D S) sub B).d_post_expert_features
      = (enqueueBuffers (shapedPlugin E K D S) sub B).d_routed_features
        + 4 * (((B * S : Nat) : Int) * D) ∧
    (enqueueBuffers (shapedPlugin E K D S) sub B).d_mix_coeff
      = (enqueueBuffers (shapedPlugin E K D S) sub B).d_post_expert_features
        + 4 * (((B * S : Nat) : Int) * D) ∧
    (enqueueBuffers (shapedPlugin E K D S) sub B).d_routed_mix_coeff
      = (enqueueBuffers (shapedPlugin E K D S) sub B).d_mix_coeff
        + 4 * ((B * S : Nat) : Int) := by
  rw [enqueueBuffers_eq sub B S D E K hK hM hME hMD hslots]
  refine ⟨?_, ?_, ?_, rfl, rfl, rfl, rfl, rfl, rfl⟩
  · intro hpos
    have h1 : 1 * (sub.weightSize + sub.workspaceSize ((B * S : Nat) : Int))
        ≤ K * (sub.weightSize + sub.workspaceSize ((B * S : Nat) : Int)) :=
      Nat.mul_le_mul_right _ hpos
    rw [one_mul] at h1
    exact Nat.mod_eq_of_lt (lt_of_le_of_lt h1 hslots)
  · intro k
    exact mul_comm _ _
  · show ((_ * K : Nat) : Int) = _
    push_cast
    exact mul_comm _ _

theorem workspace_slots_first_witness :
    (enqueueBuffers (shapedPlugin 2 2 2 2) sampleSublayer 1).d_token_expert_aff
      = (2 : Int) * (enqueueBuffers (shapedPlugin 2 2 2 2) sampleSublayer 1).mSublayerWorkspacecSize :=
  (workspace_slots_first sampleSublayer 1 2 2 2 2 (by decide) (by decide) (by decide) (by decide)
    (by decide) (by decide) (by decide) (by decide) (by decide)).2.2.1

/-- C7 (the code at the failing input): with embedding width 2 and two one-token buckets
(offsets 0 and 1), the compute for expert 1 reads at `d_routed_features + 1` and writes at
`d_post_expert_features + 1` (4 bytes in), not at element `offset[1] * D = 2` (8 bytes in)
where the bucket's first token starts. -/
theorem run_pointer_ignores_embedding_width :
    (enqueue (shapedPlugin 2 2 2 2) sampleSublayer 1 [1, 1] [0, 1, 2] 0).map runPointers
      = some
        [(0, (enqueueBuffers (shapedPlugin 2 2 2 2) sampleSublayer 1).d_routed_features + 4 * 0,
            (enqueueBuffers (shapedPlugin 2 2 2 2) sampleSublayer 1).d_post_expert_features
              + 4 * 0),
         (1, (enqueueBuffers (shapedPlugin 2 2 2 2) sampleSublayer 1).d_routed_features + 4 * 1,
            (enqueueBuffers (shapedPlugin 2 2 2 2) sampleSublayer 1).d_post_expert_features
              + 4 * 1)] ∧
    (enqueueBuffers (shapedPlugin 2 2 2 2) sampleSublayer 1).d_routed_features + 4 * 1
      ≠ (enqueueBuffers (shapedPlugin 2 2 2 2) sampleSublayer 1).d_routed_features
        + 4 * (1 * 2) := by
  decide

/-- C8 (the code at the failing input): with `K = 1` and two non-empty experts the loads and
computes are issued as load 0, load 1, compute 0, compute 1, not in the sequential order
load 0, compute 0, load 1, compute 1; when expert 0 is computed the slot was last loaded with
expert 1's weights, while with `K = 2` each expert is computed on a slot last loaded with its
own weights. -/
theorem single_slot_overwrites_weights :
    (enqueue (shapedPlugin 2 1 2 2) sampleSublayer 1 [1, 1] [0, 1, 2] 0).map work
      = some [(true, 0), (true, 1), (false, 0), (false, 1)] ∧
    sequentialWork (nonEmptyExperts [1, 1]) = [(true, 0), (false, 0), (true, 1), (false, 1)] ∧
    (enqueue (shapedPlugin 2 1 2 2) sampleSublayer 1 [1, 1] [0, 1, 2] 0).map work
      ≠ some (sequentialWork (nonEmptyExperts [1, 1])) ∧
    (enqueue (shapedPlugin 2 1 2 2) sampleSublayer 1 [1, 1] [0, 1, 2] 0).map
        (fun ops => weightsAtRun ops [])
      = some [(0, some 1), (1, some 1)] ∧
    (enqueue (shapedPlugin 2 2 2 2) sampleSublayer 1 [1, 1] [0, 1, 2] 0).map
        (fun ops => weightsAtRun ops [])
      = some [(0, some 0), (1, some 1)] := by
  decide

/-- C9: for a count table of length `E` with a non-zero entry (and `K ≥ 1`), `enqueue`
passes its assertion, the experts it loads are exactly the experts with a non-zero count, each
once and in ascending order, and the computes are issued for the same experts in the same
order, each with that expert's count as token count. -/
theorem enqueue_visits_nonempty_experts (p : MoELayerPlugin) (sub : MoESubLayer) (d0 : Int)
    (expert_count expert_offset : List Int) (oob : Int)
    (hE : p.mExpertCount = (expert_count.length : Int)) (hK : 0 < p.mMaxConcurrency)
    (hne : ∃ e, e < expert_count.length ∧ expert_count.getD e 0 ≠ 0) :
    ∃ ops, enqueue p sub d0 expert_count expert_offset oob = some ops ∧
      loads ops = nonEmptyExperts expert_count ∧
      (loads ops).Pairwise (· < ·) ∧
      (∀ e, e ∈ loads ops ↔ e < expert_count.length ∧ expert_count.getD e 0 ≠ 0) ∧
      computes ops = (loads ops).map fun e => (e, expert_count.getD e 0) := by
  obtain ⟨ops, h1, h2, h3⟩ := enqueue_spec p sub d0 expert_count expert_offset oob hE hK hne
  refine ⟨ops, h1, h2, ?_, ?_, ?_⟩
  · rw [h2]; exact nonEmptyExperts_sorted expert_count
  · intro e; rw [h2]; exact mem_nonEmptyExperts expert_count e
  · rw [h2]; exact h3

theorem enqueue_visits_nonempty_experts_witness :
    ∃ ops, enqueue (shapedPlugin 4 2 2 2) sampleSublayer 1 [0, 1, 0, 3] [0, 0, 1, 1, 4] 7
        = some ops ∧
      loads ops = nonEmptyExperts [0, 1, 0, 3] ∧
      (loads ops).Pairwise (· < ·) ∧
      (∀ e, e ∈ loads ops ↔ e < [(0 : Int), 1, 0, 3].length ∧ [(0 : Int), 1, 0, 3].getD e 0 ≠ 0) ∧
      computes ops = (loads ops).map fun e => (e, [(0 : Int), 1, 0, 3].getD e 0) :=
  enqueue_visits_nonempty_experts (shapedPlugin 4 2 2 2) sampleSublayer 1 [0, 1, 0, 3]
    [0, 0, 1, 1, 4] 7 (by decide) (by decide) ⟨1, by decide, by decide⟩

/-- C10 as stated fails: with `K = 2` and two non-empty experts, after the first load no
synchronisation of `mStreams[0]` is issued before the next load. -/
theorem warm_up_does_not_sync_slot_queue :
    (enqueue (shapedPlugin 2 2 2 2) sampleSublayer 1 [1, 1] [0, 1, 2] 0).map
      (warmUpSyncs (Queue.slot 0)) = some false := by
  decide

/-- C10 as amended: the first load `enqueue` issues is the load of the first non-empty
expert's weights into slot 0 (offset 0 of the workspace) on `mStreams[0]`, and the operation
issued right after it is a synchronisation of the primary stream (the `stream` argument), so
the primary stream is synchronised before any further load or compute. -/
theorem warm_up_syncs_primary_stream (p : MoELayerPlugin) (sub : MoESubLayer) (d0 : Int)
    (expert_count expert_offset : List Int) (oob : Int)
    (hE : p.mExpertCount = (expert_count.length : Int)) (hK : 0 < p.mMaxConcurrency)
    (hne : ∃ e, e < expert_count.length ∧ expert_count.getD e 0 ≠ 0) :
    ∃ ops pre rest e0, enqueue p sub d0 expert_count expert_offset oob = some ops ∧
      ops = pre ++ Op.copyWeights 0 e0 (Queue.slot 0) :: Op.sync Queue.primary :: rest ∧
      loads pre = [] ∧ computes pre = [] ∧
      (nonEmptyExperts expert_count).head? = some e0 ∧
      warmUpSyncs Queue.primary ops = true := by
  obtain ⟨pre, rest, e0, h1, h2, h3, h4⟩ :=
    enqueue_warmup p sub d0 expert_count expert_offset oob hE hK hne
  refine ⟨_, pre, rest, e0, h1, rfl, h2, h3, h4, ?_⟩
  unfold warmUpSyncs
  rw [afterFirstLoad_append pre _ 0 e0 (Queue.slot 0) h2]
  simp [syncBeforeWork]

theorem warm_up_syncs_primary_stream_witness :
    ∃ ops pre rest e0,
      enqueue (shapedPlugin 2 2 2 2) sampleSublayer 1 [1, 1] [0, 1, 2] 0 = some ops ∧
      ops = pre ++ Op.copyWeights 0 e0 (Queue.slot 0) :: Op.sync Queue.primary :: rest ∧
      loads pre = [] ∧ computes pre = [] ∧
      (nonEmptyExperts [1, 1]).head? = some e0 ∧
      warmUpSyncs Queue.primary ops = true :=
  warm_up_syncs_primary_stream (shapedPlugin 2 2 2 2) sampleSublayer 1 [1, 1] [0, 1, 2] 0
    (by decide) (by decide) ⟨0, by decide, by decide⟩

/-- C11: for every `K ≥ 1` and every count table with a non-zero entry, the operations
`enqueue` issues end with the synchronisations of `mStreams[0 .. K-1]` followed by the switch to the
primary stream and the fused mix-and-gather; every expert compute lies before these
synchronisations, no mix-and-gather is issued earlier, and each of the `K` slot queues is
synchronised in between. -/
theorem enqueue_drains_before_combine (p : MoELayerPlugin) (sub : MoESubLayer) (d0 : Int)
    (expert_count expert_offset : List Int) (oob : Int)
    (hE : p.mExpertCount = (expert_count.length : Int)) (hK : 0 < p.mMaxConcurrency)
    (hne : ∃ e, e < expert_count.length ∧ expert_count.getD e 0 ≠ 0) :
    ∃ ops pre, enqueue p sub d0 expert_count expert_offset oob = some ops ∧
      ops = pre ++ drain p.mMaxConcurrency.toNat ++
        [Op.setStream Queue.primary, Op.combine Queue.primary] ∧
      computes pre = computes ops ∧
      (∀ op ∈ pre ++ drain p.mMaxConcurrency.toNat, op.isCombine = false) ∧
      ∀ k : Nat, (k : Int) < p.mMaxConcurrency →
        Op.sync (Queue.slot k) ∈ drain p.mMaxConcurrency.toNat :=
  enqueue_drain p sub d0 expert_count expert_offset oob hE hK hne

theorem enqueue_drains_before_combine_witness :
    ∃ ops pre, enqueue (shapedPlugin 4 2 2 2) sampleSublayer 1 [0, 1, 0, 3] [0, 0, 1, 1, 4] 7
        = some ops ∧
      ops = pre ++ drain (shapedPlugin 4 2 2 2).mMaxConcurrency.toNat ++
        [Op.setStream Queue.primary, Op.combine Queue.primary] ∧
      computes pre = computes ops ∧
      (∀ op ∈ pre ++ drain (shapedPlugin 4 2 2 2).mMaxConcurrency.toNat,
        op.isCombine = false) ∧
      ∀ k : Nat, (k : Int) < (shapedPlugin 4 2 2 2).mMaxConcurrency →
        Op.sync (Queue.slot k) ∈ drain (shapedPlugin 4 2 2 2).mMaxConcurrency.toNat :=
  enqueue_drains_before_combine (shapedPlugin 4 2 2 2) sampleSublayer 1 [0, 1, 0, 3]
    [0, 0, 1, 1, 4] 7 (by decide) (by decide) ⟨1, by decide, by decide⟩

/-- C12: for fixed `D`, `E` and `K`, when the sublayer's `workspaceSize` is non-decreasing in
its token count, the token counts fit `int32_t` and the larger total fits `size_t`,
`getWorkspaceSize` for `B1 * S1` tokens is at most `getWorkspaceSize` for `B2 * S2` tokens
whenever `B1 * S1 ≤ B2 * S2`. -/
theorem getWorkspaceSize_monotone (sub : MoESubLayer) (B1 S1 B2 S2 D E K : Nat)
    (hB1 : B1 < 2 ^ 31) (hS1 : S1 < 2 ^ 31) (hB2 : B2 < 2 ^ 31) (hS2 : S2 < 2 ^ 31)
    (hD : D < 2 ^ 31) (hE : E < 2 ^ 31) (hK : K < 2 ^ 31)
    (hmono : ∀ a b : Int, a ≤ b → sub.workspaceSize a ≤ sub.workspaceSize b)
    (hle : B1 * S1 ≤ B2 * S2) (hM : B2 * S2 < 2 ^ 31)
    (hfit : 4 * (B2 * S2) * E + 4 * (B2 * S2) + 4 * (B2 * S2) + 4 * (B2 * S2) * D
        + 4 * (B2 * S2) * D + 2 * 4 * (B2 * S2)
        + K * (sub.weightSize + sub.workspaceSize ((B2 * S2 : Nat) : Int)) < 2 ^ 64) :
    getWorkspaceSize (shapedPlugin E K D S1) sub B1
      ≤ getWorkspaceSize (shapedPlugin E K D S2) sub B2 :=
  getWorkspaceSize_mono_of_fits sub B1 S1 B2 S2 D E K hB1 hS1 hB2 hS2 hD hE hK hmono hle hM hfit

theorem getWorkspaceSize_monotone_witness :
    getWorkspaceSize (shapedPlugin 2 2 2 2) sampleSublayer 1
      ≤ getWorkspaceSize (shapedPlugin 2 2 2 3) sampleSublayer 2 :=
  getWorkspaceSize_monotone sampleSublayer 1 2 2 3 2 2 2 (by decide) (by decide) (by decide)
    (by decide) (by decide) (by decide) (by decide)
    (fun a b hab => by
      show (8 * a).toNat ≤ (8 * b).toNat
      omega)
    (by decide) (by decide) (by decide)

/-- C13: when each of the `N` assignments names an expert below `E`, the table of the
TokenShuffler has `E` counts and `E + 1` offsets, `offset[0] = 0`, `offset[E] = N`, the counts
sum to `N`, `offset[e+1] - offset[e] = count[e]` for every expert, and every position below
`N` lies in the bucket `[offset[e], offset[e+1])` of exactly one expert. -/
theorem bucket_table_partitions (E : Nat) (assignment : List Nat)
    (hv : ∀ x ∈ assignment, x < E) :
    (bucketCounts E assignment).length = E ∧
    (bucketOffsets E assignment).length = E + 1 ∧
    (bucketOffsets E assignment).getD 0 0 = 0 ∧
    (bucketOffsets E assignment).getD E 0 = assignment.length ∧
    (bucketCounts E assignment).sum = assignment.length ∧
    (∀ e, e < E →
      (bucketOffsets E assignment).getD (e + 1) 0 - (bucketOffsets E assignment).getD e 0
        = (bucketCounts E assignment).getD e 0 ∧
      (bucketOffsets E assignment).getD e 0 ≤ (bucketOffsets E assignment).getD (e + 1) 0) ∧
    (∀ x, x < assignment.length →
      ∃ e, (e < E ∧ (bucketOffsets E assignment).getD e 0 ≤ x ∧
          x < (bucketOffsets E assignment).getD (e + 1) 0) ∧
        ∀ e', (e' < E ∧ (bucketOffsets E assignment).getD e' 0 ≤ x ∧
          x < (bucketOffsets E assignment).getD (e' + 1) 0) → e' = e) :=
  bucket_table E assignment hv

theorem bucket_table_partitions_witness :
    bucketCounts 2 [0, 1, 0, 1] = [2, 2] ∧ bucketOffsets 2 [0, 1, 0, 1] = [0, 2, 4] ∧
    (bucketCounts 2 [0, 1, 0, 1]).sum = [0, 1, 0, 1].length ∧
    (bucketOffsets 2 [0, 1, 0, 1]).getD 2 0 = [0, 1, 0, 1].length :=
  ⟨by decide, by decide,
    (bucket_table_partitions 2 [0, 1, 0, 1] (by decide)).2.2.2.2.1,
    (bucket_table_partitions 2 [0, 1, 0, 1] (by decide)).2.2.2.1⟩

/-- C14 fails in the code: once `ensureGPUCentroids` has created the device copy of the
centroids of a plugin whose host copy exists, `terminate` deletes the host copy but calls
`cudaFree` on nothing, it leaves the host pointer set and the device pointer null, and a
second `terminate` deletes the host copy again. -/
theorem terminate_leaks_device_centroids (K host dev : Nat) (r : Resources)
    (hcpu : r.mExpertCentroidsCPU = some host) (hgpu : r.mExpertCentroidsGPU = none) :
    (ensureGPUCentroids dev r).1.mExpertCentroidsGPU = some dev ∧
    (∀ a, MemCall.cudaFree a ∉ (terminate K (ensureGPUCentroids dev r).1).2) ∧
    MemCall.deleteArray host ∈ (terminate K (ensureGPUCentroids dev r).1).2 ∧
    (terminate K (ensureGPUCentroids dev r).1).1.mExpertCentroidsCPU = some host ∧
    (terminate K (ensureGPUCentroids dev r).1).1.mExpertCentroidsGPU = none ∧
    MemCall.deleteArray host
      ∈ (terminate K (terminate K (ensureGPUCentroids dev r).1).1).2 := by
  obtain ⟨cpu, gpu, cublas, streams, held⟩ := r
  simp only at hcpu hgpu
  subst hcpu hgpu
  cases cublas <;> cases streams <;> simp [ensureGPUCentroids, terminate]

theorem terminate_leaks_device_centroids_witness :
    (ensureGPUCentroids 200 sampleResources).1.mExpertCentroidsGPU = some 200 ∧
    (∀ a, MemCall.cudaFree a ∉ (terminate 2 (ensureGPUCentroids 200 sampleResources).1).2) ∧
    MemCall.deleteArray 100 ∈ (terminate 2 (ensureGPUCentroids 200 sampleResources).1).2 ∧
    (terminate 2 (ensureGPUCentroids 200 sampleResources).1).1.mExpertCentroidsCPU
      = some 100 ∧
    (terminate 2 (ensureGPUCentroids 200 sampleResources).1).1.mExpertCentroidsGPU = none ∧
    MemCall.deleteArray 100
      ∈ (terminate 2 (terminate 2 (ensureGPUCentroids 200 sampleResources).1).1).2 :=
  terminate_leaks_device_centroids 2 100 200 sampleResources rfl rfl

/-- C15: for `K ≥ 2` and a count table with a non-zero entry, the `j`-th compute `enqueue`
issues is the compute of the `j`-th non-empty expert, it uses the weights pointer of slot
`j mod K` on `mStreams[j mod K]`, and the last load issued into that slot on that queue is the
load of the same expert; when a load is issued into a slot, every earlier compute on that slot
is followed by a synchronisation of the slot's queue; and every load and compute addresses a
slot `k < K` together with `mStreams[k]`. -/
theorem enqueue_slot_discipline (p : MoELayerPlugin) (sub : MoESubLayer) (d0 : Int)
    (expert_count expert_offset : List Int) (oob : Int)
    (hE : p.mExpertCount = (expert_count.length : Int)) (hK : 2 ≤ p.mMaxConcurrency)
    (hne : ∃ e, e < expert_count.length ∧ expert_count.getD e 0 ≠ 0) :
    ∃ ops, enqueue p sub d0 expert_count expert_offset oob = some ops ∧
      ranExperts (slotReports ops SlotHistory.empty) = (nonEmptyExperts expert_count).enum ∧
      (∀ r ∈ slotReports ops SlotHistory.empty,
        r.ok p.mMaxConcurrency (enqueueBuffers p sub d0).mSublayerWorkspacecSize) ∧
      (∀ op ∈ ops, op.slotConsistent p.mMaxConcurrency
        (enqueueBuffers p sub d0).mSublayerWorkspacecSize sub.weightSize) := by
  obtain ⟨ops, h1, h2, h3⟩ :=
    enqueue_slots p sub d0 expert_count expert_offset oob hE hK hne
  obtain ⟨ops', h1', h2'⟩ :=
    enqueue_slot_order p sub d0 expert_count expert_offset oob hE (by omega) hne
  rw [h1] at h1'
  cases h1'
  exact ⟨ops, h1, h2', h2, h3⟩

theorem enqueue_slot_discipline_witness :
    ∃ ops, enqueue (shapedPlugin 4 2 2 2) sampleSublayer 1 [2, 1, 0, 3] [0, 2, 3, 3, 6] 7
        = some ops ∧
      ranExperts (slotReports ops SlotHistory.empty) = (nonEmptyExperts [2, 1, 0, 3]).enum ∧
      (∀ r ∈ slotReports ops SlotHistory.empty,
        r.ok (shapedPlugin 4 2 2 2).mMaxConcurrency
          (enqueueBuffers (shapedPlugin 4 2 2 2) sampleSublayer 1).mSublayerWorkspacecSize) ∧
      (∀ op ∈ ops, op.slotConsistent (shapedPlugin 4 2 2 2).mMaxConcurrency
        (enqueueBuffers (shapedPlugin 4 2 2 2) sampleSublayer 1).mSublayerWorkspacecSize
        sampleSublayer.weightSize) :=
  enqueue_slot_discipline (shapedPlugin 4 2 2 2) sampleSublayer 1 [2, 1, 0, 3]
    [0, 2, 3, 3, 6] 7 (by decide) (by decide) ⟨0, by decide, by decide⟩

/-- C16 fails in the code: when the saved tensors have the asserted sizes, `copyWeights`
issues one transfer per tensor, in the order layer norm, `wi_0`, `wi_1`, `wo`, and each of the
four moves `layernormWeightSize` bytes; the destination ranges are disjoint when
`layernormWeightSize` is at most `intermediateFFWeightSize`; when the two sizes differ none of
the three matrices is transferred at its asserted size, and when `layernormWeightSize` is the
smaller one the total, four times `layernormWeightSize`, is below `weightSize`. -/
theorem copyWeights_moves_layernorm_size (l : T5FFLayer) (num_bytes : T5Tensor → Nat)
    (hsaved : ∀ t, num_bytes t = l.assertedSize t) :
    ∃ ts, l.copyWeights num_bytes = some ts ∧
      ts.map Transfer.tensor = [T5Tensor.layer_norm_weight, T5Tensor.wi_0_weight,
        T5Tensor.wi_1_weight, T5Tensor.wo_weight] ∧
      ts.map Transfer.dst = [0, l.layernormWeightSize,
        l.layernormWeightSize + l.intermediateFFWeightSize,
        l.layernormWeightSize + l.intermediateFFWeightSize * 2] ∧
      (∀ t ∈ ts, t.bytes = l.layernormWeightSize) ∧
      transferred ts = 4 * l.layernormWeightSize ∧
      (l.layernormWeightSize ≤ l.intermediateFFWeightSize →
        (ts.map Transfer.region).Pairwise Region.disjoint) ∧
      (l.layernormWeightSize ≠ l.intermediateFFWeightSize →
        ∀ t ∈ ts, t.tensor ≠ T5Tensor.layer_norm_weight →
          t.bytes ≠ l.assertedSize t.tensor) ∧
      (l.layernormWeightSize < l.intermediateFFWeightSize →
        l.layernormWeightSize + 3 * l.intermediateFFWeightSize < 2 ^ 64 →
        transferred ts < l.weightSize) := by
  have h0 := hsaved T5Tensor.layer_norm_weight
  have h1 := hsaved T5Tensor.wi_0_weight
  have h2 := hsaved T5Tensor.wi_1_weight
  have h3 := hsaved T5Tensor.wo_weight
  simp only [T5FFLayer.assertedSize] at h0 h1 h2 h3
  refine ⟨[⟨T5Tensor.layer_norm_weight, 0, l.layernormWeightSize⟩,
      ⟨T5Tensor.wi_0_weight, l.layernormWeightSize, l.layernormWeightSize⟩,
      ⟨T5Tensor.wi_1_weight, l.layernormWeightSize + l.intermediateFFWeightSize,
        l.layernormWeightSize⟩,
      ⟨T5Tensor.wo_weight, l.layernormWeightSize + l.intermediateFFWeightSize * 2,
        l.layernormWeightSize⟩], ?_, rfl, rfl, ?_, ?_, ?_, ?_, ?_⟩
  · simp [T5FFLayer.copyWeights, h0, h1, h2, h3]
  · intro t ht
    simp only [List.mem_cons, List.mem_singleton, List.not_mem_nil, or_false] at ht
    rcases ht with h | h | h | h <;> (subst h; rfl)
  · simp only [transferred, List.map_cons, List.map_nil, List.sum_cons, List.sum_nil]
    omega
  · intro hle
    simp only [List.map_cons, List.map_nil, List.pairwise_cons, List.mem_cons,
      List.mem_singleton, List.not_mem_nil, forall_eq_or_imp, forall_eq, Region.disjoint,
      Region.stop, Transfer.region, List.Pairwise.nil, and_true, IsEmpty.forall_iff,
      implies_true, Nat.cast_add, Nat.cast_mul, Nat.cast_zero, Nat.cast_ofNat]
    omega
  · intro hne t ht
    simp only [List.mem_cons, List.mem_singleton, List.not_mem_nil, or_false] at ht
    rcases ht with h | h | h | h <;> subst h <;> simp [T5FFLayer.assertedSize, hne]
  · intro hlt hfit
    have e2 : l.weightSize = l.layernormWeightSize + 3 * l.intermediateFFWeightSize :=
      Nat.mod_eq_of_lt hfit
    rw [e2]
    simp only [transferred, List.map_cons, List.map_nil, List.sum_cons, List.sum_nil]
    omega

theorem copyWeights_moves_layernorm_size_witness :
    sampleT5.copyWeights sampleT5.assertedSize
        = some [⟨T5Tensor.layer_norm_weight, 0, 8⟩, ⟨T5Tensor.wi_0_weight, 8, 8⟩,
          ⟨T5Tensor.wi_1_weight, 72, 8⟩, ⟨T5Tensor.wo_weight, 136, 8⟩] ∧
      sampleT5.weightSize = 200 ∧
      ∃ ts, sampleT5.copyWeights sampleT5.assertedSize = some ts ∧ transferred ts = 4 * 8 :=
  ⟨by decide, by decide,
    (copyWeights_moves_layernorm_size sampleT5 sampleT5.assertedSize (fun _ => rfl)).imp
      fun _ h => ⟨h.1, h.2.2.2.2.1⟩⟩

/-- C17 fails in the code: the only copy `run` issues before the accumulating matrix
multiply moves `sizeof(float) * 0 = 0` bytes, so for a non-empty input it does not move the
`4 * tokenCount * embeddingSize` bytes of the expert input, and the multiply with `beta = 1`
is the only other write of the output buffer. -/
theorem run_copies_no_input (l : T5FFLayer) (tokenCount : Int)
    (hpos : 0 < tokenCount * l.mEmbeddingSize) :
    inputBytesCopied (l.run tokenCount) = 0 ∧
    (inputBytesCopied (l.run tokenCount) : Int) ≠ 4 * (tokenCount * l.mEmbeddingSize) ∧
    outputWrites (l.run tokenCount)
      = [T5Step.memcpy (T5Buffer.output, 0) (T5Buffer.input, 0) 0,
         T5Step.sgemm l.mEmbeddingSize tokenCount l.mHiddenSize
          (T5Buffer.weights, l.layernormWeightSize + l.intermediateFFWeightSize * 2)
          l.mHiddenSize
          (T5Buffer.workspace,
            l.layernormOutputSize tokenCount + l.intermediateFFOutputSize tokenCount)
          l.mHiddenSize 1 (T5Buffer.output, 0) l.mEmbeddingSize] := by
  have h0 : inputBytesCopied (l.run tokenCount) = 0 := rfl
  refine ⟨h0, ?_, rfl⟩
  rw [h0]
  simp only [Nat.cast_zero]
  omega

theorem run_copies_no_input_witness :
    inputBytesCopied (sampleT5.run 3) = 0 ∧
    (inputBytesCopied (sampleT5.run 3) : Int) ≠ 4 * (3 * sampleT5.mEmbeddingSize) ∧
    outputWrites (sampleT5.run 3)
      = [T5Step.memcpy (T5Buffer.output, 0) (T5Buffer.input, 0) 0,
         T5Step.sgemm sampleT5.mEmbeddingSize 3 sampleT5.mHiddenSize
          (T5Buffer.weights, sampleT5.layernormWeightSize + sampleT5.intermediateFFWeightSize * 2)
          sampleT5.mHiddenSize
          (T5Buffer.workspace,
            sampleT5.layernormOutputSize 3 + sampleT5.intermediateFFOutputSize 3)
          sampleT5.mHiddenSize 1 (T5Buffer.output, 0) sampleT5.mEmbeddingSize] :=
  run_copies_no_input sampleT5 3 (by decide)

/-- C18 fails in the code: for `K ≥ 1` and every count table of length `E` with a non-zero
entry, the scans of `enqueue` read `expert_count[E]`, the word behind the table, because the loop
condition reads the entry before it compares the index with `mExpertCount`; no read goes
beyond index `E`. -/
theorem scan_reads_behind_count_table (p : MoELayerPlugin) (sub : MoESubLayer) (d0 : Int)
    (expert_count expert_offset : List Int) (oob : Int)
    (hE : p.mExpertCount = (expert_count.length : Int)) (hK : 0 < p.mMaxConcurrency)
    (hne : ∃ e, e < expert_count.length ∧ expert_count.getD e 0 ≠ 0) :
    ∃ ops, enqueue p sub d0 expert_count expert_offset oob = some ops ∧
      expert_count.length ∈ scanReads ops ∧
      ∀ idx ∈ scanReads ops, idx ≤ expert_count.length :=
  enqueue_reads p sub d0 expert_count expert_offset oob hE hK hne

theorem scan_reads_behind_count_table_witness :
    (enqueue (shapedPlugin 2 2 2 2) sampleSublayer 1 [1, 1] [0, 1, 2] 0).map scanReads
        = some [0, 1, 2] ∧
      ∃ ops, enqueue (shapedPlugin 2 2 2 2) sampleSublayer 1 [1, 1] [0, 1, 2] 0 = some ops ∧
        [(1 : Int), 1].length ∈ scanReads ops ∧
        ∀ idx ∈ scanReads ops, idx ≤ [(1 : Int), 1].length :=
  ⟨by decide,
    scan_reads_behind_count_table (shapedPlugin 2 2 2 2) sampleSublayer 1 [1, 1] [0, 1, 2] 0
      (by decide) (by decide) ⟨0, by decide, by decide⟩⟩

end InfMoE
